import Mathlib

/-!
Shallow embedding of the FixMySheet backend core (`main.py`): key
normalization, row-key composition, duplicate grouping, reconciliation,
and the validation logic of the two HTTP endpoints.

Tables are modelled request-scoped and in memory, as in the source:
a pandas `Series` of text cells becomes `List (Option String)` (`none` is
NaN / missing), a `DataFrame` becomes a column-name list plus row-major
cells.  Machine floats never influence the properties below, so numeric
cells are modelled as `Option Int`.
-/

namespace FixMySheet

/-- `series.fillna("")` followed by `astype(str)` on a text cell:
missing becomes the empty string, text stays itself. -/
def fillStr : Option String → String
  | none => ""
  | some s => s

/-- CPython's whitespace predicate (`str.isspace` / `str.strip` /
`re \s` on `str`): ASCII 0x09–0x0D, 0x1C–0x1F, space, plus the Unicode
whitespace code points. -/
def isPyWs (c : Char) : Bool :=
  (9 ≤ c.toNat && c.toNat ≤ 13) ||
  (28 ≤ c.toNat && c.toNat ≤ 32) ||
  c.toNat = 0x85 || c.toNat = 0xA0 || c.toNat = 0x1680 ||
  (0x2000 ≤ c.toNat && c.toNat ≤ 0x200A) ||
  c.toNat = 0x2028 || c.toNat = 0x2029 || c.toNat = 0x202F ||
  c.toNat = 0x205F || c.toNat = 0x3000

/-- Strip leading and trailing whitespace from a character list. -/
def stripList (l : List Char) : List Char :=
  ((l.dropWhile isPyWs).reverse.dropWhile isPyWs).reverse

/-- Python `str.strip()`. -/
def pyStrip (s : String) : String := ⟨stripList s.data⟩

/-- `str.replace(r"\s+", "", regex=True)`: remove every whitespace
character. -/
def removeAllWs (s : String) : String := ⟨s.data.filter (fun c => !isPyWs c)⟩

/-- Python `str.lower()` on one character (the code points exercised by
this development are ASCII, where Python's case mapping is A–Z ↦ a–z). -/
def pyLowerChar (c : Char) : Char :=
  if 65 ≤ c.toNat ∧ c.toNat ≤ 90 then Char.ofNat (c.toNat + 32) else c

/-- Python `str.lower()`. -/
def pyLower (s : String) : String := ⟨s.data.map pyLowerChar⟩

/-- One cell of `_normalize_text_series`: fillna + astype(str), always
strip, optionally remove all whitespace, optionally lower-case —
in that order, as in the source. -/
def normalizeCell (v : Option String) (ignore_case ignore_whitespace : Bool) : String :=
  let s := pyStrip (fillStr v)
  let s := if ignore_whitespace then removeAllWs s else s
  if ignore_case then pyLower s else s

/-- `_normalize_text_series(s, ignore_case, ignore_whitespace)`. -/
def normalize_text_series (s : List (Option String)) (ignore_case ignore_whitespace : Bool) :
    List String :=
  s.map (fun v => normalizeCell v ignore_case ignore_whitespace)

/-- A column of the selected subset handed to `_make_row_keys`: pandas
dtype `object` (text) or a numeric dtype. -/
inductive PdColumn where
  | text (cells : List (Option String))
  | num (cells : List (Option Int))

/-- Per-column preprocessing of `_make_row_keys`: object columns go
through `_normalize_text_series`, numeric columns get NaN replaced by
the empty string, then everything is `astype(str)`. -/
def normalizeColumnForKeys (ignore_case ignore_whitespace : Bool) : PdColumn → List String
  | .text cells => normalize_text_series cells ignore_case ignore_whitespace
  | .num cells => cells.map (fun v => match v with | none => "" | some x => toString x)

/-- The Unit Separator delimiter `"\u001f"` of `_make_row_keys`. -/
def delimChar : Char := Char.ofNat 31

/-- The delimiter as a string. -/
def delim : String := ⟨[delimChar]⟩

/-- Python `delim.join(parts)`. -/
def pyJoin (d : String) : List String → String
  | [] => ""
  | [s] => s
  | s :: t :: rest => s ++ d ++ pyJoin d (t :: rest)

/-- `_make_row_keys(df, subset_cols, ignore_case, ignore_whitespace)`:
the selected columns are preprocessed per dtype and each row's values are
joined with the Unit Separator.  `nRows` is `len(df)`. -/
def make_row_keys (nRows : Nat) (subset_cols : List PdColumn)
    (ignore_case ignore_whitespace : Bool) : List String :=
  let cols := subset_cols.map (normalizeColumnForKeys ignore_case ignore_whitespace)
  (List.range nRows).map (fun i => pyJoin delim (cols.map (fun c => c.getD i "")))

/-- The `KeepPolicy` literal type. -/
inductive KeepPolicy where
  | mark_all
  | keep_first
  | keep_last
deriving DecidableEq

/-- The blank-disambiguation sentinel `"__BLANK__ROW__" + str(index)`. -/
def blankSentinel (i : Nat) : String := "__BLANK__ROW__" ++ toString i

/-- The internal grouping key of `_audit_duplicate_groups`:
`group_key.fillna("").astype(str)`, with blanks replaced by
position-based sentinels when `treat_blank_as_unique` is set. -/
def internalKeys (group_key : List (Option String)) (treat_blank_as_unique : Bool) :
    List String :=
  (List.range group_key.length).map (fun i =>
    let k := fillStr (group_key.getD i none)
    if treat_blank_as_unique then (if k = "" then blankSentinel i else k) else k)

/-- First index at which `k` occurs in `keys` (`keys.length` if absent). -/
def firstIdx (keys : List String) (k : String) : Nat :=
  keys.findIdx (fun x => x = k)

/-- The distinct values of a list in order of first appearance — the
`uniques` order that `pd.factorize(keys, sort=False)` codes refer to. -/
def firstOccurrences : List String → List String
  | [] => []
  | k :: rest => k :: (firstOccurrences rest).filter (fun x => x ≠ k)

/-- `f"G{code + 1:06d}"`: the group-id format string. -/
def groupIdFormat (code : Nat) : String :=
  let s := Nat.repr (code + 1)
  "G" ++ ⟨List.replicate (6 - s.length) '0'⟩ ++ s

/-- `internal_key.duplicated(keep="first")` at row `i`: some earlier row
has the same key. -/
def duplicatedBefore (keys : List String) (i : Nat) : Bool :=
  (keys.take i).any (fun x => x = keys.getD i "")

/-- `internal_key.duplicated(keep="last")` at row `i`: some later row
has the same key. -/
def duplicatedAfter (keys : List String) (i : Nat) : Bool :=
  (keys.drop (i + 1)).any (fun x => x = keys.getD i "")

/-- The `DuplicateFlag` value of row `i` under the given keep policy,
mirroring the chain of `Series.where` updates in the source. -/
def flagAt (keep_policy : KeepPolicy) (keys : List String) (inDup : Bool) (i : Nat) :
    String :=
  match keep_policy with
  | .mark_all => if inDup then "Duplicate" else "Unique"
  | .keep_first =>
      if duplicatedBefore keys i then "Duplicate"
      else if inDup then "Kept" else "Unique"
  | .keep_last =>
      if duplicatedAfter keys i then "Duplicate"
      else if inDup then "Kept" else "Unique"

/-- The five derived columns of `_audit_duplicate_groups`, for one row. -/
structure AuditRow where
  dupKey : String
  groupId : String
  count : Nat
  firstSeen : Nat
  flag : String
deriving DecidableEq, Repr, Inhabited

/-- The four policy-independent fields of an `AuditRow` (everything but
`DuplicateFlag`), used to compare runs under different keep policies. -/
def annSansFlag (r : AuditRow) : String × String × Nat × Nat :=
  (r.dupKey, r.groupId, r.count, r.firstSeen)

/-- The annotation part of `_audit_duplicate_groups`: the five derived
columns, one `AuditRow` per input row, in input order.

`counts` is `internal_key.map(internal_key.value_counts())`, `first_seen`
is `row_number.groupby(internal_key).transform("min")` on the 1-based row
numbers, the group-id codes come from `pd.factorize(internal_key,
sort=False)` and are blanked outside duplicate groups, and the display
key is blanked wherever the pre-sentinel key was blank.
`auditRowAt` is the row-`i` entry of those series. -/
def auditRowAt (group_key : List (Option String)) (display_key : Option (List (Option String)))
    (keep_policy : KeepPolicy) (treat_blank_as_unique : Bool) (i : Nat) : AuditRow :=
  let keys := internalKeys group_key treat_blank_as_unique
  let disp := (display_key.getD group_key).map fillStr
  let fo := firstOccurrences keys
  let k := keys.getD i ""
  let cnt := keys.countP (fun x => x = k)
  let inDup := decide (1 < cnt)
  { dupKey := if fillStr (group_key.getD i none) = "" then "" else disp.getD i ""
    groupId := if inDup then groupIdFormat (firstIdx fo k) else ""
    count := cnt
    firstSeen := ((((List.range keys.length).filter
      (fun j => keys.getD j "" = k)).map (fun j => j + 1)).min?).getD 0
    flag := flagAt keep_policy keys inDup i }

/-- All annotation rows of `_audit_duplicate_groups`, in input order. -/
def auditRows (group_key : List (Option String)) (display_key : Option (List (Option String)))
    (keep_policy : KeepPolicy) (treat_blank_as_unique : Bool) : List AuditRow :=
  (List.range group_key.length).map
    (auditRowAt group_key display_key keep_policy treat_blank_as_unique)

/-- `_audit_duplicate_groups`: `df.copy()` with the five duplicate
columns appended — modelled as the input rows (of arbitrary row type `α`)
zipped with their annotations, in input order. -/
def audit_duplicate_groups {α : Type} (df : List α) (group_key : List (Option String))
    (display_key : Option (List (Option String))) (keep_policy : KeepPolicy)
    (treat_blank_as_unique : Bool) : List (α × AuditRow) :=
  df.zip (auditRows group_key display_key keep_policy treat_blank_as_unique)

/-- A parsed upload at the endpoint level: stringified column names plus
row-major text cells (`none` is NaN), one inner list per row, aligned
with `columns`. -/
structure DF where
  columns : List String
  rows : List (List (Option String))
deriving DecidableEq, Repr

/-- Index of a column name. -/
def DF.colIdx (df : DF) (c : String) : Nat := df.columns.findIdx (fun x => x = c)

/-- `df[c]`: extract one column as a series. -/
def DF.col (df : DF) (c : String) : List (Option String) :=
  df.rows.map (fun r => r.getD (df.colIdx c) none)

/-- `df[c] = vals`: overwrite one column, keeping everything else. -/
def DF.setCol (df : DF) (c : String) (vals : List String) : DF :=
  { df with rows := df.rows.zipWith (fun r v => r.set (df.colIdx c) (some v)) vals }

/-- `normalize_key(series)`: `fillna("").astype(str).str.strip()`. -/
def normalize_key (series : List (Option String)) : List String :=
  series.map (fun v => pyStrip (fillStr v))

/-- Drop the entry at index `i` from a row (the right table's key column
is not repeated in the merge result). -/
def dropAt {α : Type} (r : List α) (i : Nat) : List α := r.take i ++ r.drop (i + 1)

/-- Column names of `df_a.merge(df_b, on=key, how="inner",
suffixes=("_A", "_B"))`: the left columns (suffixed on collision, key
exempt) followed by the right non-key columns (suffixed on collision). -/
def mergeColumns (colsA colsB : List String) (key : String) : List String :=
  colsA.map (fun c => if c ≠ key ∧ c ∈ colsB then c ++ "_A" else c) ++
    (colsB.filter (fun c => c ≠ key)).map
      (fun c => if c ∈ colsA then c ++ "_B" else c)

/-- `reconcile_files(df_a, df_b, key)`.  The source first overwrites the
key column of both inputs in place with its normalized form; the model
returns those post-states (`dfA2`, `dfB2`) alongside the four result
tables.  `matches` is the inner join on the key (full cross-product per
key value), `only_a`/`only_b` are the anti-joins via `isin`, and the
summary is the five counters. -/
def reconcile_files (df_a df_b : DF) (key : String) :
    DF × DF × DF × DF × DF × List (String × Nat) :=
  let dfA2 := df_a.setCol key (normalize_key (df_a.col key))
  let dfB2 := df_b.setCol key (normalize_key (df_b.col key))
  let ia := dfA2.colIdx key
  let ib := dfB2.colIdx key
  let matchesT : DF :=
    { columns := mergeColumns dfA2.columns dfB2.columns key
      rows := dfA2.rows.flatMap (fun ra =>
        (dfB2.rows.filter (fun rb => rb.getD ib none = ra.getD ia none)).map
          (fun rb => ra ++ dropAt rb ib)) }
  let only_a : DF :=
    { dfA2 with rows := dfA2.rows.filter (fun ra =>
        !(dfB2.rows.any (fun rb => rb.getD ib none = ra.getD ia none))) }
  let only_b : DF :=
    { dfB2 with rows := dfB2.rows.filter (fun rb =>
        !(dfA2.rows.any (fun ra => ra.getD ia none = rb.getD ib none))) }
  let summary := [("Rows in A", dfA2.rows.length), ("Rows in B", dfB2.rows.length),
    ("Matches", matchesT.rows.length), ("Only in A", only_a.rows.length),
    ("Only in B", only_b.rows.length)]
  (dfA2, dfB2, matchesT, only_a, only_b, summary)

/-- The JSON error payload of the `/process` endpoint's 400 response. -/
structure ProcessErr where
  status : Nat
  error : String
  columns_in_a : List String
  columns_in_b : List String
deriving DecidableEq, Repr

/-- A single-quote character, used inside the source's error strings. -/
def sq : String := ⟨[Char.ofNat 39]⟩

/-- The `/process` endpoint after a successful `read_table` of both
uploads: either the 400 payload for a missing match column, or the
reconciliation result that gets serialized into the workbook. -/
def process_files (df_a df_b : DF) (match_column : String) :
    Except ProcessErr (DF × DF × DF × DF × DF × List (String × Nat)) :=
  if match_column ∉ df_a.columns ∨ match_column ∉ df_b.columns then
    .error { status := 400
             error := "Column " ++ sq ++ match_column ++ sq ++ " must exist in both files."
             columns_in_a := df_a.columns
             columns_in_b := df_b.columns }
  else
    .ok (reconcile_files df_a df_b match_column)

/-- The JSON error payload of the `/dedupe` endpoint's 400 responses
(`columns` is present only on the payloads that include it). -/
structure DedupeErr where
  status : Nat
  error : String
  columns : Option (List String)
deriving DecidableEq, Repr

/-- `ignore_columns.split(",")` with per-piece strip, dropping empties. -/
def parseIgnoreColumns (s : String) : List String :=
  ((s.splitOn ",").map pyStrip).filter (fun c => c ≠ "")

/-- `_make_row_keys` applied to a text-only `DF` (row mode of `/dedupe`
over a table whose selected columns are all of object dtype). -/
def makeRowKeysDF (df : DF) (subset_cols : List String)
    (ignore_case ignore_whitespace : Bool) : List String :=
  make_row_keys df.rows.length (subset_cols.map (fun c => .text (df.col c)))
    ignore_case ignore_whitespace

/-- The `/dedupe` endpoint after a successful `read_table`: the chain of
validations, then the audit computation for the chosen mode.  The `ok`
payload is the `DuplicateMode` marker plus the augmented table. -/
def dedupe (df : DF) (mode : String) (keep_policy : String)
    (ignore_case ignore_whitespace : Bool)
    (key_column : Option String) (ignore_columns : Option String) :
    Except DedupeErr (String × List (List (Option String) × AuditRow)) :=
  if df.rows.length = 0 ∨ df.columns.length = 0 then
    .error { status := 400, error := "File contains no rows to process.", columns := none }
  else if keep_policy ∉ ["mark_all", "keep_first", "keep_last"] then
    .error { status := 400
             error := "keep_policy must be: mark_all | keep_first | keep_last"
             columns := none }
  else
    let kp : KeepPolicy :=
      if keep_policy = "mark_all" then .mark_all
      else if keep_policy = "keep_first" then .keep_first else .keep_last
    if mode = "column" then
      match key_column with
      | none =>
          .error { status := 400
                   error := "key_column is required when mode=" ++ sq ++ "column" ++ sq ++ "."
                   columns := none }
      | some kc0 =>
          if pyStrip kc0 = "" then
            .error { status := 400
                     error := "key_column is required when mode=" ++ sq ++ "column" ++ sq ++ "."
                     columns := none }
          else
            let kc := pyStrip kc0
            if kc ∉ df.columns then
              .error { status := 400
                       error := "Column " ++ sq ++ kc ++ sq ++ " not found."
                       columns := some df.columns }
            else
              let col_raw := df.col kc
              let col_norm := normalize_text_series col_raw ignore_case ignore_whitespace
              .ok ("column", audit_duplicate_groups df.rows (col_norm.map some)
                (some col_raw) kp true)
    else if mode = "row" then
      let ignore_list := match ignore_columns with
        | none => []
        | some s => if pyStrip s = "" then [] else parseIgnoreColumns s
      let bad_ignores := ignore_list.filter (fun c => c ∉ df.columns)
      if bad_ignores ≠ [] then
        -- the source interpolates the offending list into the message
        -- (f-string of a Python list); the rendering of that list is elided here
        .error { status := 400
                 error := "Ignore columns not found."
                 columns := some df.columns }
      else
        let subset_cols := df.columns.filter (fun c => c ∉ ignore_list)
        if subset_cols = [] then
          .error { status := 400
                   error := "No columns left to compare after ignoring columns."
                   columns := none }
        else
          let row_keys := makeRowKeysDF df subset_cols ignore_case ignore_whitespace
          .ok ("row", audit_duplicate_groups df.rows (row_keys.map some) none kp false)
    else
      .error { status := 400
               error := "mode must be either " ++ sq ++ "column" ++ sq ++ " or " ++
                 sq ++ "row" ++ sq ++ "."
               columns := none }

/-! ### Helper lemmas: indexing -/

theorem getD_range_map {β : Type} (f : Nat → β) (d : β) {n i : Nat} (h : i < n) :
    ((List.range n).map f).getD i d = f i := by
  simp [List.getD_eq_getElem?_getD, List.getElem?_map, List.getElem?_range h]

theorem map_getD_range {β : Type} (l : List β) (d : β) :
    (List.range l.length).map (fun i => l.getD i d) = l := by
  apply List.ext_getElem (by simp)
  intro i h1 h2
  rw [List.getElem_map]
  simp [List.getD_eq_getElem?_getD, List.getElem?_eq_getElem h2, List.getElem_range]

theorem getD_of_lt {α : Type} (l : List α) (d : α) {i : Nat} (h : i < l.length) :
    l.getD i d = l.get ⟨i, h⟩ := by
  simp [List.getD_eq_getElem?_getD, List.getElem?_eq_getElem h]

/-! ### Helper lemmas: injectivity of the decimal representation
(`str(i)` in the blank sentinel) -/

theorem toDigitsCore_spec (b : Nat) (hb : 1 < b) :
    ∀ (f n : Nat) (ds : List Char), n < f →
      Nat.toDigitsCore b f n ds =
        (if n = 0 then ['0'] else ((Nat.digits b n).map Nat.digitChar).reverse) ++ ds := by
  intro f
  induction f with
  | zero => intro n ds h; omega
  | succ m ih =>
    intro n ds h
    by_cases hn : n = 0
    · subst hn
      simp [Nat.toDigitsCore, Nat.digitChar]
    · have hdig := Nat.digits_def' hb (Nat.pos_of_ne_zero hn)
      by_cases hq : n / b = 0
      · have hz : Nat.digits b (n / b) = [] := by rw [hq]; simp
        simp only [Nat.toDigitsCore, hq, if_pos, if_neg hn, hdig, hz, List.map_cons,
          List.map_nil, List.reverse_cons, List.reverse_nil, List.nil_append]
        simp
      · have hlt : n / b < m := by
          have h1 : n / b < n := Nat.div_lt_self (Nat.pos_of_ne_zero hn) hb
          omega
        have hih := ih (n / b) (Nat.digitChar (n % b) :: ds) hlt
        simp only [Nat.toDigitsCore, hq, if_neg hn, if_neg hq]
        rw [hih, if_neg hq, hdig]
        simp [List.append_assoc]

theorem toDigits_spec (b n : Nat) (hb : 1 < b) :
    Nat.toDigits b n =
      if n = 0 then ['0'] else ((Nat.digits b n).map Nat.digitChar).reverse := by
  unfold Nat.toDigits
  rw [toDigitsCore_spec b hb (n + 1) n [] (by omega), List.append_nil]

theorem digitChar_inj_lt10 : ∀ a < 10, ∀ c < 10, Nat.digitChar a = Nat.digitChar c → a = c := by
  decide

theorem map_digitChar_inj : ∀ (l₁ l₂ : List Nat), (∀ x ∈ l₁, x < 10) → (∀ x ∈ l₂, x < 10) →
    l₁.map Nat.digitChar = l₂.map Nat.digitChar → l₁ = l₂ := by
  intro l₁
  induction l₁ with
  | nil => intro l₂ _ _ h; cases l₂ <;> simp_all
  | cons x t ih =>
    intro l₂ h1 h2 h
    cases l₂ with
    | nil => simp_all
    | cons y t2 =>
      simp only [List.map_cons, List.cons.injEq] at h
      have hx : x = y := digitChar_inj_lt10 x (h1 x (by simp)) y (h2 y (by simp)) h.1
      have ht : t = t2 :=
        ih t2 (fun z hz => h1 z (by simp [hz])) (fun z hz => h2 z (by simp [hz])) h.2
      rw [hx, ht]

theorem nat_repr_inj : ∀ {a b : Nat}, Nat.repr a = Nat.repr b → a = b := by
  intro a b h
  unfold Nat.repr at h
  have h2 : Nat.toDigits 10 a = Nat.toDigits 10 b := congrArg String.data h
  rw [toDigits_spec 10 a (by omega), toDigits_spec 10 b (by omega)] at h2
  by_cases ha : a = 0 <;> by_cases hb : b = 0
  · omega
  · exfalso
    rw [if_pos ha, if_neg hb] at h2
    have h3 : (Nat.digits 10 b).map Nat.digitChar = ['0'] := by
      have := congrArg List.reverse h2
      simpa using this.symm
    rcases hd : Nat.digits 10 b with _ | ⟨d, t⟩
    · simp [hd] at h3
    · rw [hd] at h3
      simp only [List.map_cons, List.cons.injEq] at h3
      have ht : t = [] := by
        have := h3.2
        cases t <;> simp_all
      have hdlt : d < 10 := Nat.digits_lt_base (by omega) (by rw [hd]; simp)
      have hd0 : d = 0 := digitChar_inj_lt10 d hdlt 0 (by omega) (by rw [h3.1]; rfl)
      have h5 : Nat.digits 10 b = [0] := by rw [hd, ht, hd0]
      have h6 : b = 0 := by
        have := Nat.ofDigits_digits 10 b
        rw [h5] at this
        simpa [Nat.ofDigits] using this.symm
      exact hb h6
  · exfalso
    rw [if_neg ha, if_pos hb] at h2
    have h3 : (Nat.digits 10 a).map Nat.digitChar = ['0'] := by
      have := congrArg List.reverse h2
      simpa using this
    rcases hd : Nat.digits 10 a with _ | ⟨d, t⟩
    · simp [hd] at h3
    · rw [hd] at h3
      simp only [List.map_cons, List.cons.injEq] at h3
      have ht : t = [] := by
        have := h3.2
        cases t <;> simp_all
      have hdlt : d < 10 := Nat.digits_lt_base (by omega) (by rw [hd]; simp)
      have hd0 : d = 0 := digitChar_inj_lt10 d hdlt 0 (by omega) (by rw [h3.1]; rfl)
      have h5 : Nat.digits 10 a = [0] := by rw [hd, ht, hd0]
      have h6 : a = 0 := by
        have := Nat.ofDigits_digits 10 a
        rw [h5] at this
        simpa [Nat.ofDigits] using this.symm
      exact ha h6
  · rw [if_neg ha, if_neg hb] at h2
    have h3 := List.reverse_injective h2
    have h4 := map_digitChar_inj _ _ (fun x hx => Nat.digits_lt_base (by omega) hx)
      (fun x hx => Nat.digits_lt_base (by omega) hx) h3
    calc a = Nat.ofDigits 10 (Nat.digits 10 a) := (Nat.ofDigits_digits 10 a).symm
    _ = Nat.ofDigits 10 (Nat.digits 10 b) := by rw [h4]
    _ = b := Nat.ofDigits_digits 10 b

theorem blankSentinel_inj {i j : Nat} (h : blankSentinel i = blankSentinel j) : i = j := by
  unfold blankSentinel at h
  have h2 : "__BLANK__ROW__".data ++ (toString i).data =
      "__BLANK__ROW__".data ++ (toString j).data := congrArg String.data h
  have h3 := List.append_cancel_left h2
  exact nat_repr_inj (String.ext h3)

/-! ### Helper lemmas: internal keys, counts, first occurrences -/

theorem internalKeys_length (gk : List (Option String)) (tb : Bool) :
    (internalKeys gk tb).length = gk.length := by
  simp [internalKeys]

theorem internalKeys_getD (gk : List (Option String)) (tb : Bool) {i : Nat}
    (h : i < gk.length) :
    (internalKeys gk tb).getD i "" =
      (if tb then
        (if fillStr (gk.getD i none) = "" then blankSentinel i else fillStr (gk.getD i none))
      else fillStr (gk.getD i none)) :=
  getD_range_map _ _ h

theorem auditRows_length (gk : List (Option String)) (dk : Option (List (Option String)))
    (kp : KeepPolicy) (tb : Bool) : (auditRows gk dk kp tb).length = gk.length := by
  simp [auditRows]

theorem auditRows_getD (gk : List (Option String)) (dk : Option (List (Option String)))
    (kp : KeepPolicy) (tb : Bool) {i : Nat} (h : i < gk.length) :
    (auditRows gk dk kp tb).getD i default = auditRowAt gk dk kp tb i :=
  getD_range_map _ _ h

theorem countP_key_positions (l : List String) (k : String) :
    l.countP (fun x => x = k) =
      ((List.range l.length).filter (fun j => l.getD j "" = k)).length := by
  conv_lhs => rw [← map_getD_range l ""]
  rw [List.countP_map, List.countP_eq_length_filter]
  rfl

theorem countP_range_id (n i : Nat) (h : i < n) :
    (List.range n).countP (fun j => j = i) = 1 := by
  induction n with
  | zero => omega
  | succ m ih =>
    rw [List.range_succ, List.countP_append]
    by_cases him : i < m
    · rw [ih him]
      have h0 : List.countP (fun j => decide (j = i)) [m] = 0 := by
        simp [List.countP_cons]
        omega
      omega
    · have him2 : i = m := by omega
      subst him2
      have h1 : (List.range i).countP (fun j => decide (j = i)) = 0 := by
        rw [List.countP_eq_zero]
        intro a ha
        have := List.mem_range.mp ha
        simp
        omega
      have h2 : List.countP (fun j => decide (j = i)) [i] = 1 := by
        simp [List.countP_cons]
      omega

theorem countP_congr_range (n : Nat) (p q : Nat → Bool) (h : ∀ j < n, p j = q j) :
    (List.range n).countP p = (List.range n).countP q :=
  List.countP_congr (fun j hj => by rw [h j (List.mem_range.mp hj)])

theorem firstIdx_lt_length_iff {l : List String} {k : String} :
    firstIdx l k < l.length ↔ k ∈ l := by
  unfold firstIdx
  rw [List.findIdx_lt_length]
  constructor
  · rintro ⟨x, hx, hp⟩
    have hxk : x = k := of_decide_eq_true hp
    rw [← hxk]
    exact hx
  · intro hk
    exact ⟨k, hk, by simp⟩

theorem getD_firstIdx {l : List String} {k : String} (h : k ∈ l) :
    l.getD (firstIdx l k) "" = k := by
  have hlt : firstIdx l k < l.length := firstIdx_lt_length_iff.mpr h
  have hp := @List.findIdx_getElem _ (fun x => decide (x = k)) l hlt
  rw [getD_of_lt _ _ hlt]
  exact of_decide_eq_true hp

theorem firstIdx_le {l : List String} {k : String} {j : Nat} (hj : j < l.length)
    (hkey : l.getD j "" = k) : firstIdx l k ≤ j := by
  by_contra hcon
  push_neg at hcon
  have hfalse := @List.not_of_lt_findIdx _ (fun x => decide (x = k)) l j hcon
  rw [getD_of_lt _ _ hj] at hkey
  simp only [List.get_eq_getElem] at hkey
  rw [hkey] at hfalse
  simp at hfalse

theorem firstIdx_inj {l : List String} {a b : String} (ha : a ∈ l) (hb : b ∈ l)
    (h : firstIdx l a = firstIdx l b) : a = b := by
  have h1 := getD_firstIdx ha
  have h2 := getD_firstIdx hb
  rw [h] at h1
  rw [h1] at h2
  exact h2

theorem duplicatedBefore_iff {keys : List String} {i : Nat} (hi : i < keys.length) :
    duplicatedBefore keys i = true ↔
      ∃ j, j < i ∧ keys.getD j "" = keys.getD i "" := by
  unfold duplicatedBefore
  rw [List.any_eq_true]
  constructor
  · rintro ⟨x, hx, hp⟩
    have hxk : x = keys.getD i "" := of_decide_eq_true hp
    obtain ⟨m, hm, hget⟩ := List.mem_iff_getElem.mp hx
    have hmi : m < i := by
      have := hm
      simp only [List.length_take] at this
      omega
    have hmlen : m < keys.length := by omega
    refine ⟨m, hmi, ?_⟩
    rw [getD_of_lt _ _ hmlen]
    simp only [List.get_eq_getElem]
    rw [← hxk, ← hget]
    exact (List.getElem_take keys).symm
  · rintro ⟨j, hj, hkey⟩
    have hjlen : j < keys.length := by omega
    have hjtake : j < (keys.take i).length := by
      simp [List.length_take]
      omega
    refine ⟨keys.getD j "", ?_, decide_eq_true hkey⟩
    rw [List.mem_iff_getElem]
    refine ⟨j, hjtake, ?_⟩
    rw [getD_of_lt _ _ hjlen]
    simp only [List.get_eq_getElem]
    exact List.getElem_take keys

theorem duplicatedAfter_iff {keys : List String} {i : Nat} (hi : i < keys.length) :
    duplicatedAfter keys i = true ↔
      ∃ j, i < j ∧ j < keys.length ∧ keys.getD j "" = keys.getD i "" := by
  unfold duplicatedAfter
  rw [List.any_eq_true]
  constructor
  · rintro ⟨x, hx, hp⟩
    have hxk : x = keys.getD i "" := of_decide_eq_true hp
    obtain ⟨m, hm, hget⟩ := List.mem_iff_getElem.mp hx
    have hmlen : i + 1 + m < keys.length := by
      have := hm
      simp only [List.length_drop] at this
      omega
    refine ⟨i + 1 + m, by omega, hmlen, ?_⟩
    rw [getD_of_lt _ _ hmlen]
    simp only [List.get_eq_getElem]
    rw [← hxk, ← hget]
    exact (List.getElem_drop keys).symm
  · rintro ⟨j, hij, hjlen, hkey⟩
    have hjdrop : j - (i + 1) < (keys.drop (i + 1)).length := by
      simp [List.length_drop]
      omega
    refine ⟨keys.getD j "", ?_, decide_eq_true hkey⟩
    rw [List.mem_iff_getElem]
    refine ⟨j - (i + 1), hjdrop, ?_⟩
    rw [getD_of_lt _ _ hjlen]
    simp only [List.get_eq_getElem]
    rw [List.getElem_drop keys]
    congr 1
    omega

theorem firstSeen_min (keys : List String) {i : Nat} (hi : i < keys.length) :
    (∃ j, j < keys.length ∧ keys.getD j "" = keys.getD i "" ∧
      ((((List.range keys.length).filter
        (fun j => keys.getD j "" = keys.getD i "")).map (fun j => j + 1)).min?).getD 0 = j + 1) ∧
    (∀ j, j < keys.length → keys.getD j "" = keys.getD i "" →
      ((((List.range keys.length).filter
        (fun j => keys.getD j "" = keys.getD i "")).map (fun j => j + 1)).min?).getD 0 ≤ j + 1) := by
  set P := (((List.range keys.length).filter
    (fun j => keys.getD j "" = keys.getD i "")).map (fun j => j + 1)) with hP
  have hiP : i + 1 ∈ P := by
    rw [hP]
    apply List.mem_map.mpr
    refine ⟨i, ?_, rfl⟩
    rw [List.mem_filter]
    exact ⟨List.mem_range.mpr hi, by simp⟩
  rcases hm : P.min? with _ | a
  · exfalso
    have := List.min?_eq_none_iff.mp hm
    rw [this] at hiP
    cases hiP
  · obtain ⟨haP, hmin⟩ := (List.min?_eq_some_iff (fun a => Nat.le_refl a)
      (fun a b => by rw [Nat.min_def]; split <;> simp)
      (fun a b c => Nat.le_min)).mp hm
    obtain ⟨j, hjf, hja⟩ := List.mem_map.mp haP
    rw [List.mem_filter] at hjf
    have hjn := List.mem_range.mp hjf.1
    have hjk := of_decide_eq_true hjf.2
    constructor
    · exact ⟨j, hjn, hjk, by rw [Option.getD_some, ← hja]⟩
    · intro j2 hj2 hk2
      have hj2P : j2 + 1 ∈ P := by
        rw [hP]
        apply List.mem_map.mpr
        refine ⟨j2, ?_, rfl⟩
        rw [List.mem_filter]
        exact ⟨List.mem_range.mpr hj2, decide_eq_true hk2⟩
      rw [Option.getD_some]
      exact hmin _ hj2P

theorem mem_firstOccurrences {l : List String} {x : String} :
    x ∈ firstOccurrences l ↔ x ∈ l := by
  induction l with
  | nil => simp [firstOccurrences]
  | cons k rest ih =>
    simp only [firstOccurrences, List.mem_cons, List.mem_filter]
    constructor
    · rintro (rfl | ⟨hx, _⟩)
      · exact .inl rfl
      · exact .inr (ih.mp hx)
    · rintro (rfl | hx)
      · exact .inl rfl
      · by_cases hxk : x = k
        · exact .inl hxk
        · exact .inr ⟨ih.mpr hx, by simp [hxk]⟩

theorem firstIdx_filter_mono {c : String} : ∀ {l : List String} {a b : String}, a ≠ c → b ≠ c →
    a ∈ l → firstIdx l a < firstIdx l b →
    firstIdx (l.filter (fun x => x ≠ c)) a < firstIdx (l.filter (fun x => x ≠ c)) b := by
  intro l
  induction l with
  | nil => intro a b _ _ ha _; cases ha
  | cons x t ih =>
    intro a b hac hbc ha h
    by_cases hxa : x = a
    · have hba : b ≠ x := by
        intro hbx
        rw [hbx] at h
        simp [firstIdx, List.findIdx_cons, hxa] at h
      rw [List.filter_cons_of_pos (by simp [hxa, hac])]
      simp only [firstIdx, List.findIdx_cons]
      rw [show (decide (x = a)) = true by simp [hxa],
        show (decide (x = b)) = false by simp [Ne.symm hba]]
      simp
    · by_cases hxb : x = b
      · exfalso
        rw [← hxb] at h
        have h0 : firstIdx (x :: t) x = 0 := by simp [firstIdx, List.findIdx_cons]
        rw [h0] at h
        omega
      · have hat : a ∈ t := by
          rcases List.mem_cons.mp ha with he | ht2
          · exact absurd he.symm hxa
          · exact ht2
        have ht : firstIdx t a < firstIdx t b := by
          have h2 := h
          simp only [firstIdx, List.findIdx_cons] at h2
          rw [show (decide (x = a)) = false by simp [hxa],
            show (decide (x = b)) = false by simp [hxb]] at h2
          simpa [firstIdx] using h2
        by_cases hxc : x = c
        · rw [List.filter_cons_of_neg (by simp [hxc])]
          exact ih hac hbc hat ht
        · rw [List.filter_cons_of_pos (by simp [hxc])]
          have := ih hac hbc hat ht
          simp only [firstIdx, List.findIdx_cons,
            show (decide (x = a)) = false by simp [hxa],
            show (decide (x = b)) = false by simp [hxb]]
          simpa [firstIdx] using Nat.succ_lt_succ this

theorem firstIdx_fo_mono : ∀ {keys : List String} {k1 k2 : String}, k1 ∈ keys → k2 ∈ keys →
    firstIdx keys k1 < firstIdx keys k2 →
    firstIdx (firstOccurrences keys) k1 < firstIdx (firstOccurrences keys) k2 := by
  intro keys
  induction keys with
  | nil => intro k1 k2 h1 _ _; cases h1
  | cons x t ih =>
    intro k1 k2 h1 h2 h
    by_cases hx1 : x = k1
    · have hk2x : k2 ≠ x := by
        intro he
        rw [he, ← hx1] at h
        exact Nat.lt_irrefl _ h
      simp only [firstOccurrences, firstIdx, List.findIdx_cons]
      rw [show (decide (x = k1)) = true by simp [hx1],
        show (decide (x = k2)) = false by simp [Ne.symm hk2x]]
      simp
    · by_cases hx2 : x = k2
      · exfalso
        rw [← hx2] at h
        have h0 : firstIdx (x :: t) x = 0 := by simp [firstIdx, List.findIdx_cons]
        rw [h0] at h
        omega
      · have h1t : k1 ∈ t := by
          rcases List.mem_cons.mp h1 with he | ht2
          · exact absurd he.symm hx1
          · exact ht2
        have h2t : k2 ∈ t := by
          rcases List.mem_cons.mp h2 with he | ht2
          · exact absurd he.symm hx2
          · exact ht2
        have ht : firstIdx t k1 < firstIdx t k2 := by
          have h3 := h
          simp only [firstIdx, List.findIdx_cons] at h3
          rw [show (decide (x = k1)) = false by simp [hx1],
            show (decide (x = k2)) = false by simp [hx2]] at h3
          simpa [firstIdx] using h3
        have hfo := ih h1t h2t ht
        have hfil := firstIdx_filter_mono (c := x)
          (fun he => hx1 he.symm) (fun he => hx2 he.symm)
          (mem_firstOccurrences.mpr h1t) hfo
        simp only [firstOccurrences, firstIdx, List.findIdx_cons]
        rw [show (decide (x = k1)) = false by simp [hx1],
          show (decide (x = k2)) = false by simp [hx2]]
        simpa [firstIdx] using Nat.succ_lt_succ hfil

theorem getD_mem {α : Type} (l : List α) (d : α) {i : Nat} (h : i < l.length) :
    l.getD i d ∈ l := by
  rw [getD_of_lt _ _ h]
  simp only [List.get_eq_getElem]
  exact List.getElem_mem h

theorem one_lt_length_of_two_mem {α : Type} {l : List α} {a b : α} (ha : a ∈ l)
    (hb : b ∈ l) (hne : a ≠ b) : 1 < l.length := by
  cases l with
  | nil => cases ha
  | cons x t =>
    cases t with
    | nil =>
      simp at ha hb
      rw [ha, ← hb] at hne
      exact absurd rfl hne
    | cons y t2 =>
      simp [List.length_cons]

theorem countP_two_positions (keys : List String) {i j : Nat} (hi : i < keys.length)
    (hj : j < keys.length) (hne : i ≠ j) (heq : keys.getD i "" = keys.getD j "") :
    1 < keys.countP (fun x => x = keys.getD i "") := by
  rw [countP_key_positions]
  have hi2 : i ∈ (List.range keys.length).filter
      (fun j2 => keys.getD j2 "" = keys.getD i "") := by
    rw [List.mem_filter]
    exact ⟨List.mem_range.mpr hi, by simp⟩
  have hj2 : j ∈ (List.range keys.length).filter
      (fun j2 => keys.getD j2 "" = keys.getD i "") := by
    rw [List.mem_filter]
    exact ⟨List.mem_range.mpr hj, decide_eq_true heq.symm⟩
  exact one_lt_length_of_two_mem hi2 hj2 hne

/-! ### Helper lemmas: projections of `auditRowAt` and `flagAt` -/

theorem auditRowAt_count (gk : List (Option String)) (dk : Option (List (Option String)))
    (kp : KeepPolicy) (tb : Bool) (i : Nat) :
    (auditRowAt gk dk kp tb i).count =
      (internalKeys gk tb).countP (fun x => x = (internalKeys gk tb).getD i "") := rfl

theorem auditRowAt_groupId (gk : List (Option String)) (dk : Option (List (Option String)))
    (kp : KeepPolicy) (tb : Bool) (i : Nat) :
    (auditRowAt gk dk kp tb i).groupId =
      (if decide (1 < (internalKeys gk tb).countP
          (fun x => x = (internalKeys gk tb).getD i "")) = true then
        groupIdFormat (firstIdx (firstOccurrences (internalKeys gk tb))
          ((internalKeys gk tb).getD i ""))
      else "") := rfl

theorem auditRowAt_firstSeen (gk : List (Option String)) (dk : Option (List (Option String)))
    (kp : KeepPolicy) (tb : Bool) (i : Nat) :
    (auditRowAt gk dk kp tb i).firstSeen =
      ((((List.range (internalKeys gk tb).length).filter
        (fun j => (internalKeys gk tb).getD j "" = (internalKeys gk tb).getD i "")).map
          (fun j => j + 1)).min?).getD 0 := rfl

theorem auditRowAt_flag (gk : List (Option String)) (dk : Option (List (Option String)))
    (kp : KeepPolicy) (tb : Bool) (i : Nat) :
    (auditRowAt gk dk kp tb i).flag =
      flagAt kp (internalKeys gk tb)
        (decide (1 < (internalKeys gk tb).countP
          (fun x => x = (internalKeys gk tb).getD i ""))) i := rfl

theorem auditRowAt_dupKey (gk : List (Option String)) (dk : Option (List (Option String)))
    (kp : KeepPolicy) (tb : Bool) (i : Nat) :
    (auditRowAt gk dk kp tb i).dupKey =
      (if fillStr (gk.getD i none) = "" then ""
       else ((dk.getD gk).map fillStr).getD i "") := rfl

theorem flagAt_mark_all (keys : List String) (b : Bool) (i : Nat) :
    flagAt .mark_all keys b i = (if b = true then "Duplicate" else "Unique") := rfl

theorem flagAt_keep_first (keys : List String) (b : Bool) (i : Nat) :
    flagAt .keep_first keys b i =
      (if duplicatedBefore keys i = true then "Duplicate"
       else if b = true then "Kept" else "Unique") := rfl

theorem flagAt_keep_last (keys : List String) (b : Bool) (i : Nat) :
    flagAt .keep_last keys b i =
      (if duplicatedAfter keys i = true then "Duplicate"
       else if b = true then "Kept" else "Unique") := rfl

theorem countP_partition {α : Type} (p q : α → Bool) : ∀ (l : List α),
    (∀ x ∈ l, q x = !p x) → l.countP p + l.countP q = l.length := by
  intro l
  induction l with
  | nil => simp
  | cons a t ih =>
    intro h
    rw [List.countP_cons, List.countP_cons, h a (by simp)]
    have ht := ih (fun x hx => h x (by simp [hx]))
    cases hpa : p a <;> simp [hpa] <;> omega

/-! ### Claim theorems -/

/-- C7: under keep_policy `mark_all`, for every input table and group key, a row
is flagged `Duplicate` iff its group size is greater than 1 and `Unique`
otherwise; no row is flagged `Kept`; the count of rows flagged `Duplicate` plus
the count flagged `Unique` equals the total row count; and every member of a
singleton group is flagged `Unique`. -/
theorem C7_mark_all_flags (gk : List (Option String)) (dk : Option (List (Option String)))
    (tb : Bool) :
    (∀ i, i < gk.length →
      ((((auditRows gk dk .mark_all tb).getD i default).flag = "Duplicate") ↔
        1 < (internalKeys gk tb).countP (fun x => x = (internalKeys gk tb).getD i "")) ∧
      ((((auditRows gk dk .mark_all tb).getD i default).flag = "Unique") ↔
        ¬ 1 < (internalKeys gk tb).countP (fun x => x = (internalKeys gk tb).getD i "")) ∧
      ((auditRows gk dk .mark_all tb).getD i default).flag ≠ "Kept" ∧
      (((auditRows gk dk .mark_all tb).getD i default).count = 1 →
        ((auditRows gk dk .mark_all tb).getD i default).flag = "Unique")) ∧
    ((auditRows gk dk .mark_all tb).countP (fun r => r.flag = "Duplicate") +
      (auditRows gk dk .mark_all tb).countP (fun r => r.flag = "Unique") = gk.length) := by
  constructor
  · intro i hi
    rw [auditRows_getD _ _ _ _ hi, auditRowAt_flag, flagAt_mark_all, auditRowAt_count]
    by_cases hdup : 1 < (internalKeys gk tb).countP
        (fun x => x = (internalKeys gk tb).getD i "")
    · rw [if_pos (decide_eq_true hdup)]
      refine ⟨⟨fun _ => hdup, fun _ => rfl⟩, ?_, by decide, ?_⟩
      · exact ⟨fun h => absurd h (by decide), fun h => absurd hdup h⟩
      · intro hcnt
        exact absurd hcnt (ne_of_gt hdup)
    · rw [if_neg (by rw [decide_eq_false hdup]; simp)]
      exact ⟨⟨fun h => absurd h (by decide), fun h => absurd h hdup⟩,
        ⟨fun _ => hdup, fun _ => rfl⟩, by decide, fun _ => rfl⟩
  · rw [countP_partition _ _ _ ?_, auditRows_length]
    intro r hr
    obtain ⟨i, _, hri⟩ := List.mem_map.mp hr
    rw [← hri, auditRowAt_flag, flagAt_mark_all]
    by_cases hdup : 1 < (internalKeys gk tb).countP
        (fun x => x = (internalKeys gk tb).getD i "")
    · rw [decide_eq_true hdup]
      decide
    · rw [decide_eq_false hdup]
      decide

/-- C7 witness: a concrete instantiation of `C7_mark_all_flags` at the key list
`["x", "x", "y"]`, row 0. -/
theorem C7_mark_all_flags_witness :
    (((auditRows [some "x", some "x", some "y"] none .mark_all true).getD 0 default).flag
      = "Duplicate") ↔
      1 < (internalKeys [some "x", some "x", some "y"] true).countP
        (fun x => x = (internalKeys [some "x", some "x", some "y"] true).getD 0 "") :=
  ((C7_mark_all_flags [some "x", some "x", some "y"] none true).1 0 (by decide)).1

/-- C1 counterexample: with `treat_blank_as_unique = true`, a blank-keyed row
is NOT always a singleton group.  If another row's key is the literal string
`"__BLANK__ROW__0"`, it collides with the sentinel substituted for the blank
row at position 0: the blank row gets `DuplicateCount = 2`, a non-empty
`DuplicateGroupID`, and is flagged `Duplicate` under `mark_all`. -/
theorem C1_counterexample :
    fillStr (([some "", some "__BLANK__ROW__0"] : List (Option String)).getD 0 none) = "" ∧
    ((auditRows [some "", some "__BLANK__ROW__0"] none .mark_all true).getD 0 default).count
      = 2 ∧
    ((auditRows [some "", some "__BLANK__ROW__0"] none .mark_all true).getD 0
      default).groupId = "G000001" ∧
    ((auditRows [some "", some "__BLANK__ROW__0"] none .mark_all true).getD 0 default).flag
      = "Duplicate" := by
  refine ⟨rfl, ?_, ?_, ?_⟩ <;> rfl

/-- C1 (amended): with `treat_blank_as_unique = true`, PROVIDED no row's key
equals a blank sentinel string `"__BLANK__ROW__" ++ str(j)` for a row position
`j`, every row whose group key is the empty string is a singleton group: its
`DuplicateCount` is 1, its `DuplicateGroupID` is empty, and it is flagged
`Unique` (in particular never `Duplicate`) under every keep policy. -/
theorem C1_blank_rows_singleton (gk : List (Option String))
    (dk : Option (List (Option String))) (kp : KeepPolicy)
    (hsent : ∀ s ∈ gk, ∀ j, j < gk.length → fillStr s ≠ blankSentinel j) :
    ∀ i, i < gk.length → fillStr (gk.getD i none) = "" →
      ((auditRows gk dk kp true).getD i default).count = 1 ∧
      ((auditRows gk dk kp true).getD i default).groupId = "" ∧
      ((auditRows gk dk kp true).getD i default).flag = "Unique" := by
  intro i hi hblank
  have hklen : (internalKeys gk true).length = gk.length := internalKeys_length gk true
  have hkey : (internalKeys gk true).getD i "" = blankSentinel i := by
    rw [internalKeys_getD gk true hi, if_pos rfl, if_pos hblank]
  have hpos : ∀ j, j < gk.length → j ≠ i →
      (internalKeys gk true).getD j "" ≠ blankSentinel i := by
    intro j hj hne
    rw [internalKeys_getD gk true hj, if_pos rfl]
    by_cases hbj : fillStr (gk.getD j none) = ""
    · rw [if_pos hbj]
      intro hcon
      exact hne (blankSentinel_inj hcon)
    · rw [if_neg hbj]
      exact hsent _ (getD_mem gk none hj) i hi
  have hcnt : (internalKeys gk true).countP
      (fun x => x = (internalKeys gk true).getD i "") = 1 := by
    rw [countP_key_positions]
    rw [← List.countP_eq_length_filter, hklen]
    rw [countP_congr_range gk.length _ (fun j => j = i) ?_]
    · exact countP_range_id gk.length i hi
    · intro j hj
      by_cases hji : j = i
      · simp [hji]
      · rw [hkey]
        simp only [decide_eq_decide]
        constructor
        · intro hc
          exact absurd hc (hpos j hj hji)
        · intro hc
          exact absurd hc hji
  have hnotdup : ¬ 1 < (internalKeys gk true).countP
      (fun x => x = (internalKeys gk true).getD i "") := by
    rw [hcnt]
    omega
  have hdb : duplicatedBefore (internalKeys gk true) i = false := by
    by_contra hcon
    have htrue : duplicatedBefore (internalKeys gk true) i = true := by
      cases hcon2 : duplicatedBefore (internalKeys gk true) i
      · exact absurd hcon2 hcon
      · rfl
    obtain ⟨j, hji, hjeq⟩ := (duplicatedBefore_iff (by omega)).mp htrue
    rw [hkey] at hjeq
    exact hpos j (by omega) (by omega) hjeq
  have hda : duplicatedAfter (internalKeys gk true) i = false := by
    by_contra hcon
    have htrue : duplicatedAfter (internalKeys gk true) i = true := by
      cases hcon2 : duplicatedAfter (internalKeys gk true) i
      · exact absurd hcon2 hcon
      · rfl
    obtain ⟨j, hji, hjlt, hjeq⟩ := (duplicatedAfter_iff (by omega)).mp htrue
    rw [hkey] at hjeq
    exact hpos j (by omega) (by omega) hjeq
  rw [auditRows_getD _ _ _ _ hi, auditRowAt_count, auditRowAt_groupId, auditRowAt_flag]
  refine ⟨hcnt, ?_, ?_⟩
  · rw [if_neg (by rw [decide_eq_false hnotdup]; simp)]
  · cases kp
    · rw [flagAt_mark_all, if_neg (by rw [decide_eq_false hnotdup]; simp)]
    · rw [flagAt_keep_first, if_neg (by rw [hdb]; simp),
        if_neg (by rw [decide_eq_false hnotdup]; simp)]
    · rw [flagAt_keep_last, if_neg (by rw [hda]; simp),
        if_neg (by rw [decide_eq_false hnotdup]; simp)]

/-- C1 witness: `C1_blank_rows_singleton` at the table `["", "a"]`
(no sentinel-shaped keys), blank row 0, policy `mark_all`. -/
theorem C1_blank_rows_singleton_witness :
    ((auditRows [some "", some "a"] none .mark_all true).getD 0 default).count = 1 ∧
    ((auditRows [some "", some "a"] none .mark_all true).getD 0 default).groupId = "" ∧
    ((auditRows [some "", some "a"] none .mark_all true).getD 0 default).flag = "Unique" :=
  C1_blank_rows_singleton [some "", some "a"] none .mark_all (by decide) 0 (by decide) rfl

/-- C4: in the output of `_audit_duplicate_groups`, every row's
`DuplicateCount` equals the number of rows sharing its (possibly
blank-disambiguated) group key, `DuplicateFirstSeenRow` equals the minimum
1-based original position among the rows of its group (so members of one group
share both values), and the output has one row per input row, in input order. -/
theorem C4_count_and_first_seen {α : Type} (df : List α) (gk : List (Option String))
    (dk : Option (List (Option String))) (kp : KeepPolicy) (tb : Bool)
    (hlen : df.length = gk.length) :
    ((audit_duplicate_groups df gk dk kp tb).map Prod.fst = df ∧
     (audit_duplicate_groups df gk dk kp tb).map Prod.snd = auditRows gk dk kp tb ∧
     (audit_duplicate_groups df gk dk kp tb).length = gk.length) ∧
    (∀ i, i < gk.length →
      (((auditRows gk dk kp tb).getD i default).count =
        ((List.range gk.length).filter (fun j =>
          (internalKeys gk tb).getD j "" = (internalKeys gk tb).getD i "")).length) ∧
      (∃ j, j < gk.length ∧ (internalKeys gk tb).getD j "" = (internalKeys gk tb).getD i "" ∧
        ((auditRows gk dk kp tb).getD i default).firstSeen = j + 1) ∧
      (∀ j, j < gk.length → (internalKeys gk tb).getD j "" = (internalKeys gk tb).getD i "" →
        ((auditRows gk dk kp tb).getD i default).firstSeen ≤ j + 1) ∧
      (∀ j, j < gk.length → (internalKeys gk tb).getD j "" = (internalKeys gk tb).getD i "" →
        ((auditRows gk dk kp tb).getD j default).count =
          ((auditRows gk dk kp tb).getD i default).count ∧
        ((auditRows gk dk kp tb).getD j default).firstSeen =
          ((auditRows gk dk kp tb).getD i default).firstSeen)) := by
  have hklen : (internalKeys gk tb).length = gk.length := internalKeys_length gk tb
  have harlen : (auditRows gk dk kp tb).length = gk.length := auditRows_length gk dk kp tb
  constructor
  · refine ⟨?_, ?_, ?_⟩
    · exact List.map_fst_zip df (auditRows gk dk kp tb) (by omega)
    · exact List.map_snd_zip df (auditRows gk dk kp tb) (by omega)
    · unfold audit_duplicate_groups
      rw [List.length_zip]
      omega
  · intro i hi
    rw [auditRows_getD _ _ _ _ hi, auditRowAt_count, auditRowAt_firstSeen]
    have hmin := firstSeen_min (internalKeys gk tb) (i := i) (by omega)
    refine ⟨?_, ?_, ?_, ?_⟩
    · rw [countP_key_positions, hklen]
    · obtain ⟨j, hj, hjk, hjfs⟩ := hmin.1
      exact ⟨j, by omega, hjk, hjfs⟩
    · intro j hj hjk
      exact hmin.2 j (by omega) hjk
    · intro j hj hjk
      rw [auditRows_getD _ _ _ _ hj, auditRowAt_count, auditRowAt_firstSeen]
      constructor
      · rw [hjk]
      · rw [hjk]

/-- C4 witness: `C4_count_and_first_seen` at a 3-row table with keys
`["a", "b", "a"]`; the first-seen row of row 2 is row 1. -/
theorem C4_count_and_first_seen_witness :
    ∃ j, j < 3 ∧ (internalKeys [some "a", some "b", some "a"] true).getD j "" =
        (internalKeys [some "a", some "b", some "a"] true).getD 2 "" ∧
      ((auditRows [some "a", some "b", some "a"] none .mark_all true).getD 2
        default).firstSeen = j + 1 :=
  ((C4_count_and_first_seen ([10, 20, 30] : List Nat) [some "a", some "b", some "a"]
    none .mark_all true rfl).2 2 (by decide)).2.1

/-- C6: `keep_first` and `keep_last` on the same input produce identical
`DuplicateKey`, `DuplicateGroupID`, `DuplicateCount` and
`DuplicateFirstSeenRow` columns.  In each duplicate group the earliest member
is `Kept` under `keep_first` and the latest member is `Kept` under
`keep_last`, all other members are `Duplicate`, and rows outside duplicate
groups are `Unique` under both policies. -/
theorem C6_keep_first_vs_keep_last (gk : List (Option String))
    (dk : Option (List (Option String))) (tb : Bool) :
    ((auditRows gk dk .keep_first tb).map annSansFlag =
      (auditRows gk dk .keep_last tb).map annSansFlag) ∧
    (∀ i, i < gk.length →
      (1 < (internalKeys gk tb).countP (fun x => x = (internalKeys gk tb).getD i "") →
        ((((auditRows gk dk .keep_first tb).getD i default).flag = "Kept") ↔
          ∀ j, j < i → (internalKeys gk tb).getD j "" ≠ (internalKeys gk tb).getD i "") ∧
        ((((auditRows gk dk .keep_first tb).getD i default).flag = "Duplicate") ↔
          ∃ j, j < i ∧ (internalKeys gk tb).getD j "" = (internalKeys gk tb).getD i "") ∧
        ((((auditRows gk dk .keep_last tb).getD i default).flag = "Kept") ↔
          ∀ j, i < j → j < gk.length →
            (internalKeys gk tb).getD j "" ≠ (internalKeys gk tb).getD i "") ∧
        ((((auditRows gk dk .keep_last tb).getD i default).flag = "Duplicate") ↔
          ∃ j, i < j ∧ j < gk.length ∧
            (internalKeys gk tb).getD j "" = (internalKeys gk tb).getD i "")) ∧
      (¬ 1 < (internalKeys gk tb).countP (fun x => x = (internalKeys gk tb).getD i "") →
        ((auditRows gk dk .keep_first tb).getD i default).flag = "Unique" ∧
        ((auditRows gk dk .keep_last tb).getD i default).flag = "Unique")) := by
  have hklen : (internalKeys gk tb).length = gk.length := internalKeys_length gk tb
  constructor
  · unfold auditRows
    rw [List.map_map, List.map_map]
    exact List.map_congr_left (fun a _ => rfl)
  · intro i hi
    rw [auditRows_getD _ _ _ _ hi, auditRows_getD _ _ _ _ hi, auditRowAt_flag,
      auditRowAt_flag, flagAt_keep_first, flagAt_keep_last]
    constructor
    · intro hdup
      rw [decide_eq_true hdup]
      have hafter : ∀ hda : duplicatedAfter (internalKeys gk tb) i = true,
          ∃ j, i < j ∧ j < gk.length ∧
            (internalKeys gk tb).getD j "" = (internalKeys gk tb).getD i "" := by
        intro hda
        obtain ⟨j1, hij1, hj1n, hj1eq⟩ := (duplicatedAfter_iff (by omega)).mp hda
        exact ⟨j1, hij1, by omega, hj1eq⟩
      by_cases hdb : duplicatedBefore (internalKeys gk tb) i = true <;>
        by_cases hda : duplicatedAfter (internalKeys gk tb) i = true
      · obtain ⟨j0, hj0i, hj0eq⟩ := (duplicatedBefore_iff (by omega)).mp hdb
        obtain ⟨j1, hij1, hj1n, hj1eq⟩ := hafter hda
        rw [if_pos hdb, if_pos hda]
        exact ⟨⟨fun h => absurd h (by decide), fun hall => absurd hj0eq (hall j0 hj0i)⟩,
          ⟨fun _ => ⟨j0, hj0i, hj0eq⟩, fun _ => rfl⟩,
          ⟨fun h => absurd h (by decide), fun hall => absurd hj1eq (hall j1 hij1 hj1n)⟩,
          ⟨fun _ => ⟨j1, hij1, hj1n, hj1eq⟩, fun _ => rfl⟩⟩
      · obtain ⟨j0, hj0i, hj0eq⟩ := (duplicatedBefore_iff (by omega)).mp hdb
        have hnoa : ∀ j, i < j → j < gk.length →
            (internalKeys gk tb).getD j "" ≠ (internalKeys gk tb).getD i "" :=
          fun j hij hjn hjeq =>
            hda ((duplicatedAfter_iff (by omega)).mpr ⟨j, hij, by omega, hjeq⟩)
        rw [if_pos hdb, if_neg hda]
        refine ⟨⟨fun h => absurd h (by decide), fun hall => absurd hj0eq (hall j0 hj0i)⟩,
          ⟨fun _ => ⟨j0, hj0i, hj0eq⟩, fun _ => rfl⟩,
          ⟨fun _ => hnoa, fun _ => rfl⟩,
          ⟨fun h => absurd h (by decide), fun hex => ?_⟩⟩
        obtain ⟨j, hij, hjn, hjeq⟩ := hex
        exact absurd hjeq (hnoa j hij hjn)
      · obtain ⟨j1, hij1, hj1n, hj1eq⟩ := hafter hda
        have hnob : ∀ j, j < i →
            (internalKeys gk tb).getD j "" ≠ (internalKeys gk tb).getD i "" :=
          fun j hji hjeq => hdb ((duplicatedBefore_iff (by omega)).mpr ⟨j, hji, hjeq⟩)
        rw [if_neg hdb, if_pos hda]
        refine ⟨⟨fun _ => hnob, fun _ => rfl⟩,
          ⟨fun h => absurd h (by decide), fun hex => ?_⟩,
          ⟨fun h => absurd h (by decide), fun hall => absurd hj1eq (hall j1 hij1 hj1n)⟩,
          ⟨fun _ => ⟨j1, hij1, hj1n, hj1eq⟩, fun _ => rfl⟩⟩
        obtain ⟨j, hji, hjeq⟩ := hex
        exact absurd hjeq (hnob j hji)
      · have hnob : ∀ j, j < i →
            (internalKeys gk tb).getD j "" ≠ (internalKeys gk tb).getD i "" :=
          fun j hji hjeq => hdb ((duplicatedBefore_iff (by omega)).mpr ⟨j, hji, hjeq⟩)
        have hnoa : ∀ j, i < j → j < gk.length →
            (internalKeys gk tb).getD j "" ≠ (internalKeys gk tb).getD i "" :=
          fun j hij hjn hjeq =>
            hda ((duplicatedAfter_iff (by omega)).mpr ⟨j, hij, by omega, hjeq⟩)
        rw [if_neg hdb, if_neg hda]
        refine ⟨⟨fun _ => hnob, fun _ => rfl⟩, ⟨fun h => absurd h (by decide), fun hex => ?_⟩,
          ⟨fun _ => hnoa, fun _ => rfl⟩, ⟨fun h => absurd h (by decide), fun hex => ?_⟩⟩
        · obtain ⟨j, hji, hjeq⟩ := hex
          exact absurd hjeq (hnob j hji)
        · obtain ⟨j, hij, hjn, hjeq⟩ := hex
          exact absurd hjeq (hnoa j hij hjn)
    · intro hdup
      have hdb : ¬ duplicatedBefore (internalKeys gk tb) i = true := by
        intro htrue
        obtain ⟨j, hji, hjeq⟩ := (duplicatedBefore_iff (by omega)).mp htrue
        exact hdup (countP_two_positions _ (by omega) (by omega)
          (by omega : i ≠ j) hjeq.symm)
      have hda : ¬ duplicatedAfter (internalKeys gk tb) i = true := by
        intro htrue
        obtain ⟨j, hij, hjn, hjeq⟩ := (duplicatedAfter_iff (by omega)).mp htrue
        exact hdup (countP_two_positions _ (by omega) (by omega)
          (by omega : i ≠ j) hjeq.symm)
      have hdupn : ¬ (decide (1 < (internalKeys gk tb).countP
          (fun x => x = (internalKeys gk tb).getD i "")) = true) := by
        rw [decide_eq_false hdup]
        simp
      rw [if_neg hdb, if_neg hda, if_neg hdupn]
      exact ⟨rfl, rfl⟩

/-- C6 witness: `C6_keep_first_vs_keep_last` at keys `["x", "x"]`: row 0 is
`Kept` under `keep_first` because it has no earlier occurrence of its key. -/
theorem C6_keep_first_vs_keep_last_witness :
    (((auditRows [some "x", some "x"] none .keep_first true).getD 0 default).flag
      = "Kept") ↔
      ∀ j, j < 0 → (internalKeys [some "x", some "x"] true).getD j "" ≠
        (internalKeys [some "x", some "x"] true).getD 0 "" :=
  (((C6_keep_first_vs_keep_last [some "x", some "x"] none true).2 0 (by decide)).1
    (by decide)).1

/-- C2 counterexample: group-id integers are NOT dense over duplicate groups.
With keys `["a", "b", "b"]` the first (and only) duplicate group to appear —
the `"b"` group — carries id `G000002`, not `G000001`, because
`pd.factorize` codes count the singleton key `"a"` as well. -/
theorem C2_counterexample :
    ((auditRows [some "a", some "b", some "b"] none .mark_all true).getD 1
      default).groupId = "G000002" ∧
    "G000002" ≠ "G000001" ∧
    ((auditRows [some "a", some "b", some "b"] none .mark_all true).getD 1
      default).count = 2 ∧
    ((auditRows [some "a", some "b", some "b"] none .mark_all true).getD 0
      default).count = 1 := by
  refine ⟨rfl, by decide, rfl, rfl⟩

/-- C2 (amended): group ids are assigned exactly to the rows whose group size
is greater than 1, formatted by `groupIdFormat` (the letter `G` followed by a
zero-padded integer of minimum width 6); the integer is 1 plus the key's rank
in order of first appearance among ALL distinct keys of the table (singleton
keys included), not among duplicate groups only.  Ids are identical exactly
within one group and strictly increase with the group's first appearance;
rows not in any duplicate group get an empty id. -/
theorem C2_group_ids (gk : List (Option String)) (dk : Option (List (Option String)))
    (kp : KeepPolicy) (tb : Bool) :
    ∀ i, i < gk.length →
      (1 < (internalKeys gk tb).countP (fun x => x = (internalKeys gk tb).getD i "") →
        ((auditRows gk dk kp tb).getD i default).groupId =
          groupIdFormat (firstIdx (firstOccurrences (internalKeys gk tb))
            ((internalKeys gk tb).getD i "")) ∧
        (∀ j, j < gk.length →
          (firstIdx (firstOccurrences (internalKeys gk tb)) ((internalKeys gk tb).getD i "") =
            firstIdx (firstOccurrences (internalKeys gk tb)) ((internalKeys gk tb).getD j "")
            ↔ (internalKeys gk tb).getD i "" = (internalKeys gk tb).getD j "") ∧
          (firstIdx (internalKeys gk tb) ((internalKeys gk tb).getD i "") <
              firstIdx (internalKeys gk tb) ((internalKeys gk tb).getD j "") →
            firstIdx (firstOccurrences (internalKeys gk tb))
                ((internalKeys gk tb).getD i "") <
              firstIdx (firstOccurrences (internalKeys gk tb))
                ((internalKeys gk tb).getD j "")))) ∧
      (¬ 1 < (internalKeys gk tb).countP (fun x => x = (internalKeys gk tb).getD i "") →
        ((auditRows gk dk kp tb).getD i default).groupId = "") := by
  have hklen : (internalKeys gk tb).length = gk.length := internalKeys_length gk tb
  intro i hi
  rw [auditRows_getD _ _ _ _ hi, auditRowAt_groupId]
  constructor
  · intro hdup
    rw [if_pos (by rw [decide_eq_true hdup])]
    refine ⟨rfl, ?_⟩
    intro j hj
    have hmemi : (internalKeys gk tb).getD i "" ∈ internalKeys gk tb :=
      getD_mem _ _ (by omega)
    have hmemj : (internalKeys gk tb).getD j "" ∈ internalKeys gk tb :=
      getD_mem _ _ (by omega)
    constructor
    · constructor
      · intro hrank
        exact firstIdx_inj (mem_firstOccurrences.mpr hmemi)
          (mem_firstOccurrences.mpr hmemj) hrank
      · intro hkeq
        rw [hkeq]
    · intro hfirst
      exact firstIdx_fo_mono hmemi hmemj hfirst
  · intro hdup
    rw [if_neg (by rw [decide_eq_false hdup]; simp)]

/-- C2 witness: `C2_group_ids` at keys `["a", "b", "b"]`, duplicate row 1:
its id is the format of the rank of `"b"` among all distinct keys. -/
theorem C2_group_ids_witness :
    1 < (internalKeys [some "a", some "b", some "b"] true).countP
      (fun x => x = (internalKeys [some "a", some "b", some "b"] true).getD 1 "") ∧
    ((auditRows [some "a", some "b", some "b"] none .mark_all true).getD 1
      default).groupId =
      groupIdFormat (firstIdx (firstOccurrences (internalKeys
        [some "a", some "b", some "b"] true))
        ((internalKeys [some "a", some "b", some "b"] true).getD 1 "")) :=
  ⟨by decide,
    ((C2_group_ids [some "a", some "b", some "b"] none .mark_all true 1 (by decide)).1
      (by decide)).1⟩

/-! ### Helper lemmas: Python string normalization -/

theorem toNat_ofNat_lt {n : Nat} (h : n < 55296) : (Char.ofNat n).toNat = n := by
  unfold Char.ofNat
  rw [dif_pos (Or.inl h)]
  rfl

theorem isPyWs_eq_false_of (c : Char) (h1 : 65 ≤ c.toNat) (h2 : c.toNat ≤ 122) :
    isPyWs c = false := by
  unfold isPyWs
  simp only [Bool.or_eq_false_iff, Bool.and_eq_false_iff, decide_eq_false_iff_not]
  omega

theorem isPyWs_pyLowerChar (c : Char) : isPyWs (pyLowerChar c) = isPyWs c := by
  unfold pyLowerChar
  by_cases h : 65 ≤ c.toNat ∧ c.toNat ≤ 90
  · rw [if_pos h]
    have ht := toNat_ofNat_lt (n := c.toNat + 32) (by omega)
    rw [isPyWs_eq_false_of _ (by omega) (by omega),
      isPyWs_eq_false_of c (by omega) (by omega)]
  · rw [if_neg h]

theorem pyLowerChar_idem (c : Char) : pyLowerChar (pyLowerChar c) = pyLowerChar c := by
  by_cases h : 65 ≤ c.toNat ∧ c.toNat ≤ 90
  · have hlow : pyLowerChar c = Char.ofNat (c.toNat + 32) := by
      unfold pyLowerChar
      rw [if_pos h]
    have ht := toNat_ofNat_lt (n := c.toNat + 32) (by omega)
    rw [hlow]
    unfold pyLowerChar
    rw [if_neg (by omega)]
  · have hid : pyLowerChar c = c := by
      unfold pyLowerChar
      rw [if_neg h]
    rw [hid, hid]

theorem dropWhile_head_false {α : Type} (p : α → Bool) (l : List α) :
    ∀ a, (l.dropWhile p).head? = some a → p a = false := by
  have hnot := List.head?_dropWhile_not p l
  intro a ha
  rw [ha] at hnot
  exact hnot

theorem dropWhile_eq_self_of_head {α : Type} {p : α → Bool} {l : List α}
    (h : ∀ a, l.head? = some a → p a = false) : l.dropWhile p = l := by
  rw [List.dropWhile_eq_self_iff]
  intro hl hcon
  have hhead : l.head? = some (l.get ⟨0, hl⟩) := by
    cases l with
    | nil => simp at hl
    | cons a t => rfl
  rw [h _ hhead] at hcon
  cases hcon

theorem getLast?_dropWhile {α : Type} (p : α → Bool) : ∀ (l : List α),
    l.dropWhile p ≠ [] → (l.dropWhile p).getLast? = l.getLast? := by
  intro l
  induction l with
  | nil => intro h; simp at h
  | cons a t ih =>
    intro h
    by_cases hpa : p a = true
    · rw [List.dropWhile_cons_of_pos hpa] at h ⊢
      have ht := ih h
      rw [ht]
      cases t with
      | nil => simp at h
      | cons b t2 => rw [List.getLast?_cons_cons]
    · have hpa2 : p a = false := by
        cases h2 : p a
        · rfl
        · exact absurd h2 hpa
      rw [List.dropWhile_cons_of_neg (by rw [hpa2]; simp)]

theorem stripList_head_last (l : List Char) :
    (∀ a, (stripList l).head? = some a → isPyWs a = false) ∧
    (∀ a, (stripList l).getLast? = some a → isPyWs a = false) := by
  unfold stripList
  constructor
  · intro a ha
    rw [List.head?_reverse] at ha
    have hne : (l.dropWhile isPyWs).reverse.dropWhile isPyWs ≠ [] := by
      intro hnil
      rw [hnil] at ha
      cases ha
    rw [getLast?_dropWhile _ _ hne, List.getLast?_reverse] at ha
    exact dropWhile_head_false _ _ a ha
  · intro a ha
    rw [List.getLast?_reverse] at ha
    exact dropWhile_head_false _ _ a ha

theorem stripList_eq_self {l : List Char}
    (hh : ∀ a, l.head? = some a → isPyWs a = false)
    (hl : ∀ a, l.getLast? = some a → isPyWs a = false) : stripList l = l := by
  unfold stripList
  rw [dropWhile_eq_self_of_head hh]
  rw [dropWhile_eq_self_of_head ?_]
  · exact List.reverse_reverse l
  · intro a ha
    rw [List.head?_reverse] at ha
    exact hl a ha

theorem stripList_idem (l : List Char) : stripList (stripList l) = stripList l :=
  stripList_eq_self (stripList_head_last l).1 (stripList_head_last l).2

theorem stripList_of_all_not_ws {l : List Char} (h : ∀ c ∈ l, isPyWs c = false) :
    stripList l = l := by
  apply stripList_eq_self
  · intro a ha
    exact h a (List.mem_of_mem_head? ha)
  · intro a ha
    rw [← List.head?_reverse] at ha
    exact h a (List.mem_reverse.mp (List.mem_of_mem_head? ha))

theorem stripList_map {f : Char → Char} (hf : ∀ c, isPyWs (f c) = isPyWs c)
    (l : List Char) : stripList (l.map f) = (stripList l).map f := by
  unfold stripList
  have hfp : (isPyWs ∘ f) = isPyWs := funext hf
  rw [List.dropWhile_map, hfp, ← List.map_reverse, List.dropWhile_map, hfp,
    ← List.map_reverse]

theorem pyStrip_pyStrip (s : String) : pyStrip (pyStrip s) = pyStrip s :=
  String.ext (stripList_idem s.data)

theorem pyStrip_removeAllWs (s : String) : pyStrip (removeAllWs s) = removeAllWs s :=
  String.ext (stripList_of_all_not_ws (fun c hc => by
    have hm := List.mem_filter.mp hc
    simpa using hm.2))

theorem removeAllWs_removeAllWs (s : String) :
    removeAllWs (removeAllWs s) = removeAllWs s := by
  apply String.ext
  show List.filter _ (List.filter _ s.data) = List.filter _ s.data
  rw [List.filter_eq_self.mpr]
  intro a ha
  exact (List.mem_filter.mp ha).2

theorem pyStrip_pyLower (s : String) (h : pyStrip s = s) :
    pyStrip (pyLower s) = pyLower s := by
  apply String.ext
  show stripList (s.data.map pyLowerChar) = s.data.map pyLowerChar
  rw [stripList_map isPyWs_pyLowerChar]
  have hs : stripList s.data = s.data := congrArg String.data h
  rw [hs]

theorem removeAllWs_pyLower (s : String) (h : removeAllWs s = s) :
    removeAllWs (pyLower s) = pyLower s := by
  apply String.ext
  show List.filter _ (s.data.map pyLowerChar) = s.data.map pyLowerChar
  rw [List.filter_map]
  have hfp : ((fun c => !isPyWs c) ∘ pyLowerChar) = (fun c => !isPyWs c) := by
    funext c
    simp only [Function.comp_apply, isPyWs_pyLowerChar]
  rw [hfp]
  have hs : List.filter (fun c => !isPyWs c) s.data = s.data := congrArg String.data h
  rw [hs]

theorem pyLower_pyLower (s : String) : pyLower (pyLower s) = pyLower s := by
  apply String.ext
  show (s.data.map pyLowerChar).map pyLowerChar = s.data.map pyLowerChar
  rw [List.map_map]
  exact List.map_congr_left (fun a _ => pyLowerChar_idem a)

theorem normalizeCell_idem (v : Option String) (ic iw : Bool) :
    normalizeCell (some (normalizeCell v ic iw)) ic iw = normalizeCell v ic iw := by
  cases ic <;> cases iw
  · show pyStrip (pyStrip (fillStr v)) = pyStrip (fillStr v)
    exact pyStrip_pyStrip _
  · show removeAllWs (pyStrip (removeAllWs (pyStrip (fillStr v)))) =
      removeAllWs (pyStrip (fillStr v))
    rw [pyStrip_removeAllWs, removeAllWs_removeAllWs]
  · show pyLower (pyStrip (pyLower (pyStrip (fillStr v)))) = pyLower (pyStrip (fillStr v))
    rw [pyStrip_pyLower _ (pyStrip_pyStrip _), pyLower_pyLower]
  · show pyLower (removeAllWs (pyStrip (pyLower (removeAllWs (pyStrip (fillStr v)))))) =
      pyLower (removeAllWs (pyStrip (fillStr v)))
    rw [pyStrip_pyLower _ (pyStrip_removeAllWs _),
      removeAllWs_pyLower _ (removeAllWs_removeAllWs _), pyLower_pyLower]

/-- C8: the Key Normalizer `_normalize_text_series` (missing-to-empty,
string-coercion, strip, optional remove-all-whitespace, optional lower-case,
in that order) is idempotent for every flag setting: applying it again to its
own output returns that output unchanged, and the output has the same length
and order as the input. -/
theorem C8_normalizer_idempotent (s : List (Option String)) (ic iw : Bool) :
    normalize_text_series ((normalize_text_series s ic iw).map some) ic iw =
      normalize_text_series s ic iw ∧
    (normalize_text_series s ic iw).length = s.length := by
  constructor
  · unfold normalize_text_series
    rw [List.map_map, List.map_map]
    exact List.map_congr_left (fun v _ => normalizeCell_idem v ic iw)
  · exact List.length_map s _

/-! ### Helper lemmas: composite row keys -/

theorem append_delim_cons_inj : ∀ {a : List Char} {b x y : List Char},
    delimChar ∉ a → delimChar ∉ b →
    a ++ delimChar :: x = b ++ delimChar :: y → a = b ∧ x = y := by
  intro a
  induction a with
  | nil =>
    intro b x y _ hb h
    cases b with
    | nil =>
      simp only [List.nil_append, List.cons.injEq] at h
      exact ⟨rfl, h.2⟩
    | cons c t =>
      simp only [List.nil_append, List.cons_append, List.cons.injEq] at h
      exact absurd (h.1 ▸ List.mem_cons_self c t) hb
  | cons c t ih =>
    intro b x y ha hb h
    cases b with
    | nil =>
      simp only [List.cons_append, List.nil_append, List.cons.injEq] at h
      exact absurd (h.1.symm ▸ List.mem_cons_self c t) ha
    | cons c2 t2 =>
      simp only [List.cons_append, List.cons.injEq] at h
      have hat : delimChar ∉ t := fun hm => ha (List.mem_cons_of_mem c hm)
      have hbt : delimChar ∉ t2 := fun hm => hb (List.mem_cons_of_mem c2 hm)
      obtain ⟨h1, h2⟩ := ih hat hbt h.2
      exact ⟨by rw [h.1, h1], h2⟩

theorem pyJoin_data_cons (s t : String) (rest : List String) :
    (pyJoin delim (s :: t :: rest)).data =
      s.data ++ delimChar :: (pyJoin delim (t :: rest)).data := by
  show (s ++ delim ++ pyJoin delim (t :: rest)).data = _
  show (s.data ++ delim.data) ++ (pyJoin delim (t :: rest)).data = _
  rw [List.append_assoc]
  rfl

theorem map_eq_map_imp {α β : Type} : ∀ (l : List α) (f g : α → β),
    l.map f = l.map g → ∀ x ∈ l, f x = g x := by
  intro l
  induction l with
  | nil => intro f g _ x hx; cases hx
  | cons a t ih =>
    intro f g h x hx
    simp only [List.map_cons, List.cons.injEq] at h
    rcases List.mem_cons.mp hx with rfl | hxt
    · exact h.1
    · exact ih f g h.2 x hxt

theorem pyJoin_inj : ∀ (xs ys : List String), xs.length = ys.length →
    (∀ s ∈ xs, delimChar ∉ s.data) → (∀ s ∈ ys, delimChar ∉ s.data) →
    pyJoin delim xs = pyJoin delim ys → xs = ys := by
  intro xs
  induction xs with
  | nil =>
    intro ys hlen _ _ _
    cases ys with
    | nil => rfl
    | cons y t => simp at hlen
  | cons x xs2 ih =>
    intro ys hlen hx hy h
    cases ys with
    | nil => simp at hlen
    | cons y ys2 =>
      cases xs2 with
      | nil =>
        cases ys2 with
        | nil => rw [show x = y from h]
        | cons y2 ys3 => simp at hlen
      | cons x2 xs3 =>
        cases ys2 with
        | nil => simp at hlen
        | cons y2 ys3 =>
          have hd := congrArg String.data h
          rw [pyJoin_data_cons, pyJoin_data_cons] at hd
          obtain ⟨h1, h2⟩ := append_delim_cons_inj (hx x (by simp)) (hy y (by simp)) hd
          have hxy : x = y := String.ext h1
          have hrest : pyJoin delim (x2 :: xs3) = pyJoin delim (y2 :: ys3) :=
            String.ext h2
          have htail := ih (y2 :: ys3) (by simpa using hlen)
            (fun s hs => hx s (by simp [hs])) (fun s hs => hy s (by simp [hs])) hrest
          rw [hxy, htail]

theorem make_row_keys_getD (nRows : Nat) (subset_cols : List PdColumn)
    (ic iw : Bool) {i : Nat} (h : i < nRows) :
    (make_row_keys nRows subset_cols ic iw).getD i "" =
      pyJoin delim ((subset_cols.map (normalizeColumnForKeys ic iw)).map
        (fun c => c.getD i "")) := by
  unfold make_row_keys
  exact getD_range_map _ _ h

theorem pyLowerChar_eq_delim {c : Char} (h : pyLowerChar c = delimChar) :
    c = delimChar := by
  unfold pyLowerChar at h
  by_cases hc : 65 ≤ c.toNat ∧ c.toNat ≤ 90
  · rw [if_pos hc] at h
    have ht := congrArg Char.toNat h
    rw [toNat_ofNat_lt (by omega)] at ht
    have hd : delimChar.toNat = 31 := by decide
    omega
  · rw [if_neg hc] at h
    exact h

/-- C3 counterexample: the Unit Separator CAN survive normalization inside a
cell value, so `_make_row_keys` is not injective.  The rows
`("a\u001Fb", "c")` and `("a", "b\u001Fc")` differ after normalization in
both columns, yet compose to the same key `"a\u001Fb\u001Fc"`. -/
theorem C3_counterexample :
    (normalizeColumnForKeys false false
      (.text [some "a\u001Fb", some "a"])).getD 0 "" ≠
      (normalizeColumnForKeys false false
        (.text [some "a\u001Fb", some "a"])).getD 1 "" ∧
    (make_row_keys 2 [.text [some "a\u001Fb", some "a"],
        .text [some "c", some "b\u001Fc"]] false false).getD 0 "" =
      (make_row_keys 2 [.text [some "a\u001Fb", some "a"],
        .text [some "c", some "b\u001Fc"]] false false).getD 1 "" := by
  constructor
  · decide
  · rfl

/-- C3 (amended): `_make_row_keys` is injective up to normalization PROVIDED
no normalized column value contains the Unit Separator U+001F: two rows whose
normalized values differ in at least one selected column get different
composite keys.  The hypothesis is automatic for text columns when
`ignore_whitespace` is set, since U+001F is whitespace for Python and is then
removed (second conjunct); in particular the values `("ab","c")` vs
`("a","bc")` of the claim never collide (third conjunct). -/
theorem C3_row_keys_injective (nRows : Nat) (subset_cols : List PdColumn) (ic iw : Bool)
    (hlen : ∀ c ∈ subset_cols, (normalizeColumnForKeys ic iw c).length = nRows)
    (hnd : ∀ c ∈ subset_cols, ∀ v ∈ normalizeColumnForKeys ic iw c, delimChar ∉ v.data) :
    (∀ i j, i < nRows → j < nRows →
      (∃ c ∈ subset_cols, (normalizeColumnForKeys ic iw c).getD i "" ≠
        (normalizeColumnForKeys ic iw c).getD j "") →
      (make_row_keys nRows subset_cols ic iw).getD i "" ≠
        (make_row_keys nRows subset_cols ic iw).getD j "") ∧
    (∀ v : Option String, ∀ ic2 : Bool, delimChar ∉ (normalizeCell v ic2 true).data) ∧
    ((make_row_keys 2 [.text [some "ab", some "a"], .text [some "c", some "bc"]]
        ic iw).getD 0 "" ≠
      (make_row_keys 2 [.text [some "ab", some "a"], .text [some "c", some "bc"]]
        ic iw).getD 1 "") := by
  refine ⟨?_, ?_, ?_⟩
  · intro i j hi hj hdiff hkeys
    obtain ⟨c0, hc0, hne⟩ := hdiff
    rw [make_row_keys_getD _ _ _ _ hi, make_row_keys_getD _ _ _ _ hj] at hkeys
    have hmemd : ∀ (idx : Nat), idx < nRows →
        ∀ s ∈ (subset_cols.map (normalizeColumnForKeys ic iw)).map
          (fun c => c.getD idx ""), delimChar ∉ s.data := by
      intro idx hidx s hs
      obtain ⟨cn, hcn, hcs⟩ := List.mem_map.mp hs
      obtain ⟨c1, hc1, hcc⟩ := List.mem_map.mp hcn
      rw [← hcs, ← hcc]
      exact hnd c1 hc1 _ (getD_mem _ _ (by rw [hlen c1 hc1]; omega))
    have heqlists := pyJoin_inj _ _ (by simp) (hmemd i hi) (hmemd j hj) hkeys
    have hpt := map_eq_map_imp (subset_cols.map (normalizeColumnForKeys ic iw))
      (fun c => c.getD i "") (fun c => c.getD j "") heqlists
      (normalizeColumnForKeys ic iw c0) (List.mem_map.mpr ⟨c0, hc0, rfl⟩)
    exact hne hpt
  · intro v ic2
    cases ic2
    · show delimChar ∉ (removeAllWs (pyStrip (fillStr v))).data
      intro hmem
      have hm := List.mem_filter.mp hmem
      have : isPyWs delimChar = true := by decide
      rw [this] at hm
      simp at hm
    · show delimChar ∉ (pyLower (removeAllWs (pyStrip (fillStr v)))).data
      intro hmem
      obtain ⟨c, hc, hcd⟩ := List.mem_map.mp hmem
      have hcdelim : c = delimChar := pyLowerChar_eq_delim hcd
      rw [hcdelim] at hc
      have hm := List.mem_filter.mp hc
      have : isPyWs delimChar = true := by decide
      rw [this] at hm
      simp at hm
  · cases ic <;> cases iw <;> decide

/-- C3 witness: `C3_row_keys_injective` at one text column `["p", "q"]`:
rows 0 and 1 differ in the column, so their composite keys differ. -/
theorem C3_row_keys_injective_witness :
    (make_row_keys 2 [.text [some "p", some "q"]] false false).getD 0 "" ≠
      (make_row_keys 2 [.text [some "p", some "q"]] false false).getD 1 "" :=
  (C3_row_keys_injective 2 [.text [some "p", some "q"]] false false
    (by decide) (by decide)).1 0 1 (by decide) (by decide) (by decide)

/-! ### Helper lemmas: reconciliation -/

theorem reconcile_files_components (df_a df_b : DF) (key : String) :
    (reconcile_files df_a df_b key).1 = df_a.setCol key (normalize_key (df_a.col key)) ∧
    (reconcile_files df_a df_b key).2.1 =
      df_b.setCol key (normalize_key (df_b.col key)) ∧
    (reconcile_files df_a df_b key).2.2.1.rows =
      (df_a.setCol key (normalize_key (df_a.col key))).rows.flatMap (fun ra =>
        ((df_b.setCol key (normalize_key (df_b.col key))).rows.filter
          (fun rb => rb.getD ((df_b.setCol key (normalize_key (df_b.col key))).colIdx key)
            none = ra.getD ((df_a.setCol key (normalize_key (df_a.col key))).colIdx key)
            none)).map
          (fun rb => ra ++ dropAt rb
            ((df_b.setCol key (normalize_key (df_b.col key))).colIdx key))) ∧
    (reconcile_files df_a df_b key).2.2.2.1.rows =
      (df_a.setCol key (normalize_key (df_a.col key))).rows.filter (fun ra =>
        !((df_b.setCol key (normalize_key (df_b.col key))).rows.any
          (fun rb => rb.getD ((df_b.setCol key (normalize_key (df_b.col key))).colIdx key)
            none = ra.getD ((df_a.setCol key (normalize_key (df_a.col key))).colIdx key)
            none))) ∧
    (reconcile_files df_a df_b key).2.2.2.2.1.rows =
      (df_b.setCol key (normalize_key (df_b.col key))).rows.filter (fun rb =>
        !((df_a.setCol key (normalize_key (df_a.col key))).rows.any
          (fun ra => ra.getD ((df_a.setCol key (normalize_key (df_a.col key))).colIdx key)
            none = rb.getD ((df_b.setCol key (normalize_key (df_b.col key))).colIdx key)
            none))) :=
  ⟨rfl, rfl, rfl, rfl, rfl⟩

/-- C5: `reconcile_files` partitions the rows of A by key membership — a row
of (normalized) A is in `OnlyInA` iff its key appears nowhere in B's
normalized key column, and otherwise it contributes at least one row to
`Matches`; symmetrically for B.  `len(Matches) + len(OnlyInA) = len(A)` does
NOT hold in general: with a duplicated key in B the inner join yields the full
cross-product (final conjunct gives a concrete violation). -/
theorem C5_reconcile_partition :
    (∀ (df_a df_b : DF) (key : String),
      ∀ ra ∈ (reconcile_files df_a df_b key).1.rows,
        ((ra ∈ (reconcile_files df_a df_b key).2.2.2.1.rows) ↔
          ra.getD ((reconcile_files df_a df_b key).1.colIdx key) none ∉
            (reconcile_files df_a df_b key).2.1.rows.map
              (fun rb => rb.getD ((reconcile_files df_a df_b key).2.1.colIdx key) none)) ∧
        (ra.getD ((reconcile_files df_a df_b key).1.colIdx key) none ∈
            (reconcile_files df_a df_b key).2.1.rows.map
              (fun rb => rb.getD ((reconcile_files df_a df_b key).2.1.colIdx key) none) →
          ∃ rb ∈ (reconcile_files df_a df_b key).2.1.rows,
            rb.getD ((reconcile_files df_a df_b key).2.1.colIdx key) none =
              ra.getD ((reconcile_files df_a df_b key).1.colIdx key) none ∧
            (ra ++ dropAt rb ((reconcile_files df_a df_b key).2.1.colIdx key)) ∈
              (reconcile_files df_a df_b key).2.2.1.rows)) ∧
    (∀ (df_a df_b : DF) (key : String),
      ∀ rb ∈ (reconcile_files df_a df_b key).2.1.rows,
        ((rb ∈ (reconcile_files df_a df_b key).2.2.2.2.1.rows) ↔
          rb.getD ((reconcile_files df_a df_b key).2.1.colIdx key) none ∉
            (reconcile_files df_a df_b key).1.rows.map
              (fun ra => ra.getD ((reconcile_files df_a df_b key).1.colIdx key) none)) ∧
        (rb.getD ((reconcile_files df_a df_b key).2.1.colIdx key) none ∈
            (reconcile_files df_a df_b key).1.rows.map
              (fun ra => ra.getD ((reconcile_files df_a df_b key).1.colIdx key) none) →
          ∃ ra ∈ (reconcile_files df_a df_b key).1.rows,
            ra.getD ((reconcile_files df_a df_b key).1.colIdx key) none =
              rb.getD ((reconcile_files df_a df_b key).2.1.colIdx key) none ∧
            (ra ++ dropAt rb ((reconcile_files df_a df_b key).2.1.colIdx key)) ∈
              (reconcile_files df_a df_b key).2.2.1.rows)) ∧
    ((reconcile_files ⟨["id"], [[some "k"]]⟩ ⟨["id"], [[some "k"], [some "k"]]⟩
        "id").2.2.1.rows.length +
      (reconcile_files ⟨["id"], [[some "k"]]⟩ ⟨["id"], [[some "k"], [some "k"]]⟩
        "id").2.2.2.1.rows.length ≠
      (⟨["id"], [[some "k"]]⟩ : DF).rows.length) := by
  refine ⟨?_, ?_, by decide⟩
  · intro df_a df_b key ra hra
    obtain ⟨hA2, hB2, hM, hOA, hOB⟩ := reconcile_files_components df_a df_b key
    rw [hA2] at hra
    constructor
    · rw [hOA, hA2, hB2, List.mem_filter]
      constructor
      · rintro ⟨_, hnotany⟩ hmem
        obtain ⟨rb, hrb, hrbeq⟩ := List.mem_map.mp hmem
        have hany : (df_b.setCol key (normalize_key (df_b.col key))).rows.any
            (fun rb2 => rb2.getD ((df_b.setCol key (normalize_key (df_b.col key))).colIdx
              key) none = ra.getD ((df_a.setCol key (normalize_key (df_a.col key))).colIdx
              key) none) = true :=
          List.any_eq_true.mpr ⟨rb, hrb, decide_eq_true hrbeq⟩
        rw [hany] at hnotany
        cases hnotany
      · intro hnotin
        refine ⟨hra, ?_⟩
        cases hany : (df_b.setCol key (normalize_key (df_b.col key))).rows.any
            (fun rb2 => rb2.getD ((df_b.setCol key (normalize_key (df_b.col key))).colIdx
              key) none = ra.getD ((df_a.setCol key (normalize_key (df_a.col key))).colIdx
              key) none)
        · rfl
        · obtain ⟨rb, hrb, hrbeq⟩ := List.any_eq_true.mp hany
          exact absurd (List.mem_map.mpr ⟨rb, hrb, of_decide_eq_true hrbeq⟩) hnotin
    · intro hmem
      rw [hB2] at hmem ⊢
      obtain ⟨rb, hrb, hrbeq⟩ := List.mem_map.mp hmem
      refine ⟨rb, hrb, hrbeq, ?_⟩
      rw [hM]
      apply List.mem_flatMap.mpr
      refine ⟨ra, hra, ?_⟩
      apply List.mem_map.mpr
      refine ⟨rb, ?_, rfl⟩
      rw [List.mem_filter]
      exact ⟨hrb, decide_eq_true hrbeq⟩
  · intro df_a df_b key rb hrb
    obtain ⟨hA2, hB2, hM, hOA, hOB⟩ := reconcile_files_components df_a df_b key
    rw [hB2] at hrb
    constructor
    · rw [hOB, hA2, hB2, List.mem_filter]
      constructor
      · rintro ⟨_, hnotany⟩ hmem
        obtain ⟨ra, hra, hraeq⟩ := List.mem_map.mp hmem
        have hany : (df_a.setCol key (normalize_key (df_a.col key))).rows.any
            (fun ra2 => ra2.getD ((df_a.setCol key (normalize_key (df_a.col key))).colIdx
              key) none = rb.getD ((df_b.setCol key (normalize_key (df_b.col key))).colIdx
              key) none) = true :=
          List.any_eq_true.mpr ⟨ra, hra, decide_eq_true hraeq⟩
        rw [hany] at hnotany
        cases hnotany
      · intro hnotin
        refine ⟨hrb, ?_⟩
        cases hany : (df_a.setCol key (normalize_key (df_a.col key))).rows.any
            (fun ra2 => ra2.getD ((df_a.setCol key (normalize_key (df_a.col key))).colIdx
              key) none = rb.getD ((df_b.setCol key (normalize_key (df_b.col key))).colIdx
              key) none)
        · rfl
        · obtain ⟨ra, hra, hraeq⟩ := List.any_eq_true.mp hany
          exact absurd (List.mem_map.mpr ⟨ra, hra, of_decide_eq_true hraeq⟩) hnotin
    · intro hmem
      rw [hA2] at hmem ⊢
      obtain ⟨ra, hra, hraeq⟩ := List.mem_map.mp hmem
      refine ⟨ra, hra, hraeq, ?_⟩
      rw [hM]
      apply List.mem_flatMap.mpr
      refine ⟨ra, hra, ?_⟩
      apply List.mem_map.mpr
      refine ⟨rb, ?_, rfl⟩
      rw [List.mem_filter]
      exact ⟨hrb, decide_eq_true hraeq.symm⟩

/-- C5 witness: the partition at one-row tables with distinct keys: the row of
A is in `OnlyInA` iff its key is absent from B (and it is). -/
theorem C5_reconcile_partition_witness :
    ([some "1"] ∈ (reconcile_files ⟨["id"], [[some "1"]]⟩ ⟨["id"], [[some "2"]]⟩
      "id").2.2.2.1.rows) ↔
      ([some "1"] : List (Option String)).getD
        ((reconcile_files ⟨["id"], [[some "1"]]⟩ ⟨["id"], [[some "2"]]⟩
          "id").1.colIdx "id") none ∉
        (reconcile_files ⟨["id"], [[some "1"]]⟩ ⟨["id"], [[some "2"]]⟩
          "id").2.1.rows.map (fun rb => rb.getD ((reconcile_files ⟨["id"], [[some "1"]]⟩
            ⟨["id"], [[some "2"]]⟩ "id").2.1.colIdx "id") none) :=
  ((C5_reconcile_partition.1 ⟨["id"], [[some "1"]]⟩ ⟨["id"], [[some "2"]]⟩ "id"
    [some "1"] (by decide)).1)

theorem getD_set_ne {α : Type} (l : List α) (d a : α) {i j : Nat} (h : i ≠ j) :
    (l.set i a).getD j d = l.getD j d := by
  by_cases hj : j < l.length
  · rw [getD_of_lt _ _ hj, getD_of_lt _ _ (by rw [List.length_set]; exact hj)]
    simp only [List.get_eq_getElem]
    exact List.getElem_set_ne h _
  · have h1 : l[j]? = none := List.getElem?_eq_none (by omega)
    have h2 : (l.set i a)[j]? = none :=
      List.getElem?_eq_none (by rw [List.length_set]; omega)
    rw [List.getD_eq_getElem?_getD, List.getD_eq_getElem?_getD, h1, h2]

theorem getD_append_left {α : Type} (a b : List α) (d : α) {i : Nat} (h : i < a.length) :
    (a ++ b).getD i d = a.getD i d := by
  rw [getD_of_lt _ _ (by rw [List.length_append]; omega), getD_of_lt _ _ h]
  simp only [List.get_eq_getElem]
  exact List.getElem_append_left h

theorem setCol_rows_length (df : DF) (key : String) :
    (df.setCol key (normalize_key (df.col key))).rows.length = df.rows.length := by
  unfold DF.setCol normalize_key DF.col
  rw [List.length_zipWith]
  simp

theorem setCol_rows_getD (df : DF) (key : String) {i : Nat} (h : i < df.rows.length) :
    ((df.setCol key (normalize_key (df.col key))).rows).getD i [] =
      (df.rows.getD i []).set (df.colIdx key)
        (some (pyStrip (fillStr ((df.rows.getD i []).getD (df.colIdx key) none)))) := by
  have hzlen : i < ((df.setCol key (normalize_key (df.col key))).rows).length := by
    rw [setCol_rows_length]
    exact h
  rw [getD_of_lt _ _ hzlen, getD_of_lt _ _ h]
  simp only [List.get_eq_getElem]
  show (List.zipWith (fun r v => r.set (df.colIdx key) (some v)) df.rows
      ((df.rows.map (fun r => r.getD (df.colIdx key) none)).map
        (fun v => pyStrip (fillStr v))))[i] = _
  rw [List.getElem_zipWith, List.getElem_map, List.getElem_map]

theorem colIdx_lt_length {df : DF} {key : String} (h : key ∈ df.columns) :
    df.colIdx key < df.columns.length := by
  unfold DF.colIdx
  rw [List.findIdx_lt_length]
  exact ⟨key, h, by simp⟩

/-- C10: `reconcile_files` mutates both input tables in place — the key column
of each is overwritten with its normalized form (missing → empty string,
stringify, strip) before joining — while every non-key cell, the column list,
and the row count/order stay unchanged; consequently `Matches`, `OnlyInA` and
`OnlyInB` hold the normalized key values, not the uploaded ones. -/
theorem C10_reconcile_mutates_inputs (df_a df_b : DF) (key : String)
    (hA : key ∈ df_a.columns) (hB : key ∈ df_b.columns)
    (hwA : ∀ r ∈ df_a.rows, r.length = df_a.columns.length)
    (hwB : ∀ r ∈ df_b.rows, r.length = df_b.columns.length) :
    ((reconcile_files df_a df_b key).1.columns = df_a.columns ∧
     (reconcile_files df_a df_b key).2.1.columns = df_b.columns ∧
     (reconcile_files df_a df_b key).1.rows.length = df_a.rows.length ∧
     (reconcile_files df_a df_b key).2.1.rows.length = df_b.rows.length) ∧
    (∀ i, i < df_a.rows.length →
      (((reconcile_files df_a df_b key).1.rows.getD i []).getD (df_a.colIdx key) none =
        some (pyStrip (fillStr ((df_a.rows.getD i []).getD (df_a.colIdx key) none)))) ∧
      (∀ j, j ≠ df_a.colIdx key →
        ((reconcile_files df_a df_b key).1.rows.getD i []).getD j none =
          (df_a.rows.getD i []).getD j none)) ∧
    (∀ i, i < df_b.rows.length →
      (((reconcile_files df_a df_b key).2.1.rows.getD i []).getD (df_b.colIdx key) none =
        some (pyStrip (fillStr ((df_b.rows.getD i []).getD (df_b.colIdx key) none)))) ∧
      (∀ j, j ≠ df_b.colIdx key →
        ((reconcile_files df_a df_b key).2.1.rows.getD i []).getD j none =
          (df_b.rows.getD i []).getD j none)) ∧
    ((∀ r ∈ (reconcile_files df_a df_b key).2.2.2.1.rows,
        r ∈ (reconcile_files df_a df_b key).1.rows) ∧
     (∀ r ∈ (reconcile_files df_a df_b key).2.2.2.2.1.rows,
        r ∈ (reconcile_files df_a df_b key).2.1.rows)) ∧
    (∀ m ∈ (reconcile_files df_a df_b key).2.2.1.rows,
      m.getD (df_a.colIdx key) none ∈ (normalize_key (df_a.col key)).map some) := by
  obtain ⟨hA2, hB2, hM, hOA, hOB⟩ := reconcile_files_components df_a df_b key
  have hiaA : df_a.colIdx key < df_a.columns.length := colIdx_lt_length hA
  have hiaB : df_b.colIdx key < df_b.columns.length := colIdx_lt_length hB
  have hkeyA : ∀ i, i < df_a.rows.length →
      ((reconcile_files df_a df_b key).1.rows.getD i []).getD (df_a.colIdx key) none =
        some (pyStrip (fillStr ((df_a.rows.getD i []).getD (df_a.colIdx key) none))) := by
    intro i hi
    rw [hA2, setCol_rows_getD df_a key hi]
    have hwrow : (df_a.rows.getD i []).length = df_a.columns.length :=
      hwA _ (getD_mem _ _ hi)
    rw [getD_of_lt _ _ (by rw [List.length_set]; omega)]
    simp only [List.get_eq_getElem]
    exact List.getElem_set_self _
  have hkeyB : ∀ i, i < df_b.rows.length →
      ((reconcile_files df_a df_b key).2.1.rows.getD i []).getD (df_b.colIdx key) none =
        some (pyStrip (fillStr ((df_b.rows.getD i []).getD (df_b.colIdx key) none))) := by
    intro i hi
    rw [hB2, setCol_rows_getD df_b key hi]
    have hwrow : (df_b.rows.getD i []).length = df_b.columns.length :=
      hwB _ (getD_mem _ _ hi)
    rw [getD_of_lt _ _ (by rw [List.length_set]; omega)]
    simp only [List.get_eq_getElem]
    exact List.getElem_set_self _
  refine ⟨⟨by rw [hA2]; rfl, by rw [hB2]; rfl, by rw [hA2]; exact setCol_rows_length df_a key,
      by rw [hB2]; exact setCol_rows_length df_b key⟩, ?_, ?_, ⟨?_, ?_⟩, ?_⟩
  · intro i hi
    refine ⟨hkeyA i hi, ?_⟩
    intro j hj
    rw [hA2, setCol_rows_getD df_a key hi]
    exact getD_set_ne _ _ _ (fun he => hj he.symm)
  · intro i hi
    refine ⟨hkeyB i hi, ?_⟩
    intro j hj
    rw [hB2, setCol_rows_getD df_b key hi]
    exact getD_set_ne _ _ _ (fun he => hj he.symm)
  · intro r hr
    rw [hOA] at hr
    rw [hA2]
    exact (List.mem_filter.mp hr).1
  · intro r hr
    rw [hOB] at hr
    rw [hB2]
    exact (List.mem_filter.mp hr).1
  · intro m hm
    rw [hM] at hm
    obtain ⟨ra, hra, hm2⟩ := List.mem_flatMap.mp hm
    obtain ⟨rb, _, hmeq⟩ := List.mem_map.mp hm2
    obtain ⟨i, hilt, hraeq⟩ := List.mem_iff_getElem.mp hra
    have hilen : i < df_a.rows.length := by
      have := hilt
      rw [show (df_a.setCol key (normalize_key (df_a.col key))).rows.length =
        df_a.rows.length from setCol_rows_length df_a key] at this
      exact this
    have hra2 : ra = ((reconcile_files df_a df_b key).1.rows).getD i [] := by
      rw [hA2, getD_of_lt _ _ hilt]
      simp only [List.get_eq_getElem]
      rw [hraeq]
    have hralen : ra.length = df_a.columns.length := by
      rw [hra2, hA2, setCol_rows_getD df_a key hilen, List.length_set]
      exact hwA _ (getD_mem _ _ hilen)
    have hgd : m.getD (df_a.colIdx key) none = ra.getD (df_a.colIdx key) none := by
      rw [← hmeq]
      exact getD_append_left _ _ _ (by omega)
    rw [hgd, hra2, hkeyA i hilen]
    apply List.mem_map.mpr
    refine ⟨pyStrip (fillStr ((df_a.rows.getD i []).getD (df_a.colIdx key) none)), ?_, rfl⟩
    unfold normalize_key DF.col
    rw [List.map_map]
    apply List.mem_map.mpr
    exact ⟨df_a.rows.getD i [], getD_mem _ _ hilen, rfl⟩

/-- C10 witness: at one-row tables, the mutated A table holds the stripped key
`"1"` in place of the uploaded `"1 "`. -/
theorem C10_reconcile_mutates_inputs_witness :
    ((reconcile_files ⟨["id", "v"], [[some "1 ", some "x"]]⟩
      ⟨["id"], [[some "1"]]⟩ "id").1.rows.getD 0 []).getD
        ((⟨["id", "v"], [[some "1 ", some "x"]]⟩ : DF).colIdx "id") none =
      some (pyStrip (fillStr ((([[some "1 ", some "x"]] :
        List (List (Option String))).getD 0 []).getD
          ((⟨["id", "v"], [[some "1 ", some "x"]]⟩ : DF).colIdx "id") none))) :=
  ((C10_reconcile_mutates_inputs ⟨["id", "v"], [[some "1 ", some "x"]]⟩
    ⟨["id"], [[some "1"]]⟩ "id" (by decide) (by decide) (by decide) (by decide)).2.1
    0 (by decide)).1

/-- C9: a request naming a key column absent from an input table fails with
status 400 and an error payload that names the missing column and lists the
available column names: `/process` when `match_column` is missing from either
table, and `/dedupe` in column mode when the (stripped) `key_column` is
missing from the table.  The result is the error value, so no output
artifact is produced. -/
theorem C9_missing_key_column :
    (∀ (df_a df_b : DF) (mc : String),
      (mc ∉ df_a.columns ∨ mc ∉ df_b.columns) →
      process_files df_a df_b mc = .error
        { status := 400
          error := "Column " ++ sq ++ mc ++ sq ++ " must exist in both files."
          columns_in_a := df_a.columns
          columns_in_b := df_b.columns }) ∧
    (∀ (df : DF) (kp : String) (ic iw : Bool) (kc : String) (icols : Option String),
      df.rows.length ≠ 0 → df.columns.length ≠ 0 →
      kp ∈ (["mark_all", "keep_first", "keep_last"] : List String) →
      pyStrip kc ≠ "" → pyStrip kc ∉ df.columns →
      dedupe df "column" kp ic iw (some kc) icols = .error
        { status := 400
          error := "Column " ++ sq ++ pyStrip kc ++ sq ++ " not found."
          columns := some df.columns }) := by
  constructor
  · intro df_a df_b mc h
    unfold process_files
    rw [if_pos h]
  · intro df kp ic iw kc icols h1 h2 h3 h4 h5
    unfold dedupe
    rw [if_neg (by rintro (h | h) <;> omega)]
    rw [if_neg (fun hcon => hcon h3)]
    rw [if_pos rfl]
    split
    next heq => cases heq
    next kc0 heq =>
      cases heq
      rw [if_neg h4]
      rw [if_pos h5]

/-- C9 witness: `/process` with `match_column = "id"` missing from table B,
and `/dedupe` column mode with `key_column = "nope"` absent. -/
theorem C9_missing_key_column_witness :
    process_files ⟨["id"], [[some "1"]]⟩ ⟨["k"], [[some "1"]]⟩ "id" = .error
      { status := 400
        error := "Column " ++ sq ++ "id" ++ sq ++ " must exist in both files."
        columns_in_a := ["id"]
        columns_in_b := ["k"] } ∧
    dedupe ⟨["email"], [[some "a"]]⟩ "column" "mark_all" false false (some "nope") none =
      .error { status := 400
               error := "Column " ++ sq ++ pyStrip "nope" ++ sq ++ " not found."
               columns := some ["email"] } :=
  ⟨C9_missing_key_column.1 ⟨["id"], [[some "1"]]⟩ ⟨["k"], [[some "1"]]⟩ "id" (by decide),
   C9_missing_key_column.2 ⟨["email"], [[some "a"]]⟩ "mark_all" false false "nope" none
     (by decide) (by decide) (by decide) (by decide) (by decide)⟩

end FixMySheet
